import Mathlib

/-!
A verification development for the panda-bot tool-orchestration engine.

The definitions below are a shallow embedding of the Python source:

* `src/panda_bot/ai/conversation.py`   (conversation assembly)
* `src/panda_bot/ai/tool_runner.py`    (structured tool loop)
* `src/panda_bot/ai/handler.py`        (text-tagged tool loop)
* `src/panda_bot/services/scheduler.py` (scheduled task re-entry)

Modelling conventions:

* Machine integers are `Nat`; byte strings are `List Nat`.
* `async` functions become pure state-passing functions; the sequence of
  `save_turn` calls is a ledger (`turns`) threaded through the state.
* The cooperative cancellation event (`asyncio.Event`) is an oracle
  `Nat → Bool` consulted at every `is_set()` call site exactly as the
  source does, indexed by the number of checks performed so far.  The
  concurrent tool batch (`asyncio.gather`) is serialized in block order;
  since results are collected positionally this is one admissible schedule.
* The AI backend is an opaque function from (call index, system prompt,
  message list) to a response, covering any deterministic remote model.
  The numeric `max_tokens` / `temperature` parameters are forwarded to the
  backend unchanged by the loops and are absorbed into that function.
* Python's `json.loads` / `json.dumps` are embedded as an executable
  JSON parser/serializer over `JVal`; error-message *texts* raised by the
  Python runtime (JSONDecodeError/AttributeError/TypeError wording) are
  represented by fixed descriptive strings, since no property depends on
  their precise wording.
-/

namespace Panda

/-- A single quote character, used when building strings that quote tool names. -/
def sq : String := String.singleton (Char.ofNat 39)

/-- The `{` character. -/
def lbrace : Char := Char.ofNat 123

/-- The `}` character. -/
def rbrace : Char := Char.ofNat 125

/-- Whether `needle` occurs as a contiguous sublist of the second list. -/
def listIsInfixOf (needle : List Char) : List Char → Bool
  | [] => needle.isEmpty
  | c :: rest => needle.isPrefixOf (c :: rest) || listIsInfixOf needle rest

/-- Python's `needle in hay` substring test on strings. -/
def strContains (hay needle : String) : Bool :=
  listIsInfixOf needle.data hay.data

/-- Python's `s.startswith(pre)`. -/
def strStartsWith (s pre : String) : Bool :=
  pre.data.isPrefixOf s.data

/-- Python's whitespace class for `str.strip` (ASCII part; the verified
strings contain no other whitespace). -/
def pyStripWs (c : Char) : Bool :=
  c == ' ' || c == '\t' || c == '\n' || c == '\r' ||
    c == Char.ofNat 12 || c == Char.ofNat 11

/-- Python's `s.strip()`. -/
def pyStrip (s : String) : String :=
  String.mk (((s.data.dropWhile pyStripWs).reverse.dropWhile pyStripWs).reverse)

/-! ## JSON values, mirroring Python's `json` module -/

/-- A JSON value as produced by `json.loads`.  Numbers are kept as their
source text, since no code under verification computes with them. -/
inductive JVal where
  | null
  | bool (b : Bool)
  | num (raw : String)
  | str (s : String)
  | arr (elems : List JVal)
  | obj (fields : List (String × JVal))
deriving Inhabited

/-- `dict.get(key, default)` on a parsed JSON object (first binding wins,
as in Python dicts built by `json.loads`, which keep the last duplicate;
`loads` overwrites duplicates, so we keep the last binding for a key). -/
def jGet (fields : List (String × JVal)) (key : String) : Option JVal :=
  match fields.reverse.find? (fun kv => kv.1 == key) with
  | some kv => some kv.2
  | none => none

/-- JSON whitespace accepted by Python's `json.loads`. -/
def jIsWs (c : Char) : Bool :=
  c == ' ' || c == '\t' || c == '\n' || c == '\r'

/-- Hexadecimal digit value. -/
def hexVal (c : Char) : Option Nat :=
  if '0' ≤ c ∧ c ≤ '9' then some (c.toNat - '0'.toNat)
  else if 'a' ≤ c ∧ c ≤ 'f' then some (c.toNat - 'a'.toNat + 10)
  else if 'A' ≤ c ∧ c ≤ 'F' then some (c.toNat - 'A'.toNat + 10)
  else none

/-- Parse the body of a JSON string literal (after the opening quote),
handling the escape sequences of the JSON grammar. -/
def parseJStr (fuel : Nat) (acc : List Char) (s : List Char) :
    Option (String × List Char) :=
  match fuel, s with
  | 0, _ => none
  | _, [] => none
  | fuel + 1, c :: rest =>
    if c == '"' then some (String.mk acc.reverse, rest)
    else if c == '\\' then
      match rest with
      | [] => none
      | e :: rest2 =>
        if e == '"' then parseJStr fuel ('"' :: acc) rest2
        else if e == '\\' then parseJStr fuel ('\\' :: acc) rest2
        else if e == '/' then parseJStr fuel ('/' :: acc) rest2
        else if e == 'b' then parseJStr fuel (Char.ofNat 8 :: acc) rest2
        else if e == 'f' then parseJStr fuel (Char.ofNat 12 :: acc) rest2
        else if e == 'n' then parseJStr fuel ('\n' :: acc) rest2
        else if e == 'r' then parseJStr fuel ('\r' :: acc) rest2
        else if e == 't' then parseJStr fuel ('\t' :: acc) rest2
        else if e == 'u' then
          match rest2 with
          | h1 :: h2 :: h3 :: h4 :: rest3 =>
            match hexVal h1, hexVal h2, hexVal h3, hexVal h4 with
            | some a, some b, some c2, some d =>
              parseJStr fuel (Char.ofNat (((a * 16 + b) * 16 + c2) * 16 + d) :: acc) rest3
            | _, _, _, _ => none
          | _ => none
        else none
    else parseJStr fuel (c :: acc) rest

/-- Characters that may occur in a JSON number token. -/
def jNumChar (c : Char) : Bool :=
  c.isDigit || c == '-' || c == '+' || c == '.' || c == 'e' || c == 'E'

mutual

/-- Parse one JSON value (fuel-bounded recursive-descent, mirroring the
grammar accepted by `json.loads`). -/
def parseJVal (fuel : Nat) (s : List Char) : Option (JVal × List Char) :=
  match fuel with
  | 0 => none
  | fuel + 1 =>
    match s.dropWhile jIsWs with
    | [] => none
    | c :: rest =>
      if c == '"' then
        match parseJStr (fuel + 1) [] rest with
        | some (str, rest2) => some (.str str, rest2)
        | none => none
      else if c == lbrace then parseJObj fuel rest true
      else if c == '[' then parseJArr fuel rest true
      else if c == 't' then
        match rest with
        | 'r' :: 'u' :: 'e' :: rest2 => some (.bool true, rest2)
        | _ => none
      else if c == 'f' then
        match rest with
        | 'a' :: 'l' :: 's' :: 'e' :: rest2 => some (.bool false, rest2)
        | _ => none
      else if c == 'n' then
        match rest with
        | 'u' :: 'l' :: 'l' :: rest2 => some (.null, rest2)
        | _ => none
      else if jNumChar c then
        let tok := (c :: rest).takeWhile jNumChar
        some (.num (String.mk tok), (c :: rest).dropWhile jNumChar)
      else none

/-- Parse the items of a JSON array after the opening bracket.
`first` is true when no item has been consumed yet. -/
def parseJArr (fuel : Nat) (s : List Char) (first : Bool) :
    Option (JVal × List Char) :=
  match fuel with
  | 0 => none
  | fuel + 1 =>
    match s.dropWhile jIsWs with
    | [] => none
    | c :: rest =>
      if c == ']' ∧ first then some (.arr [], rest)
      else
        match parseJVal fuel (c :: rest) with
        | none => none
        | some (v, rest2) =>
          match rest2.dropWhile jIsWs with
          | ']' :: rest3 => some (.arr [v], rest3)
          | ',' :: rest3 =>
            match parseJArr fuel rest3 false with
            | some (.arr vs, rest4) => some (.arr (v :: vs), rest4)
            | _ => none
          | _ => none

/-- Parse the members of a JSON object after the opening brace.
`first` is true when no member has been consumed yet. -/
def parseJObj (fuel : Nat) (s : List Char) (first : Bool) :
    Option (JVal × List Char) :=
  match fuel with
  | 0 => none
  | fuel + 1 =>
    match s.dropWhile jIsWs with
    | [] => none
    | c :: rest =>
      if c == rbrace ∧ first then some (.obj [], rest)
      else if c == '"' then
        match parseJStr (fuel + 1) [] rest with
        | none => none
        | some (key, rest2) =>
          match rest2.dropWhile jIsWs with
          | ':' :: rest3 =>
            match parseJVal fuel rest3 with
            | none => none
            | some (v, rest4) =>
              match rest4.dropWhile jIsWs with
              | r :: rest5 =>
                if r == rbrace then some (.obj [(key, v)], rest5)
                else if r == ',' then
                  match parseJObj fuel rest5 false with
                  | some (.obj kvs, rest6) => some (.obj ((key, v) :: kvs), rest6)
                  | _ => none
                else none
              | [] => none
          | _ => none
      else none

end

/-- `json.loads`: parse a complete JSON document; anything but trailing
whitespace after the value is an error. -/
def jLoads (s : String) : Option JVal :=
  match parseJVal (2 * s.length + 8) s.data with
  | some (v, rest) => if rest.dropWhile jIsWs = [] then some v else none
  | none => none

/-- Escape one character as inside a `json.dumps` string literal
(`ensure_ascii=True` behaviour, without surrogate-pair splitting for
astral-plane characters, which never arise in the verified properties). -/
def jEscapeChar (c : Char) : String :=
  if c == '"' then "\\\""
  else if c == '\\' then "\\\\"
  else if c == '\n' then "\\n"
  else if c == '\r' then "\\r"
  else if c == '\t' then "\\t"
  else if c.toNat < 32 ∨ c.toNat > 126 then
    let hex := Nat.toDigits 16 c.toNat
    let pad := String.mk (List.replicate (4 - hex.length) '0')
    "\\u" ++ pad ++ String.mk hex
  else String.singleton c

/-- `json.dumps` of a string. -/
def jDumpStr (s : String) : String :=
  "\"" ++ String.join (s.data.map jEscapeChar) ++ "\""

/-- `json.dumps` with the default separators. -/
def JVal.dumps : JVal → String
  | .null => "null"
  | .bool true => "true"
  | .bool false => "false"
  | .num raw => raw
  | .str s => jDumpStr s
  | .arr elems =>
    "[" ++ String.intercalate ", "
      (elems.attach.map (fun x => JVal.dumps x.1)) ++ "]"
  | .obj fields =>
    String.singleton lbrace ++ String.intercalate ", "
      (fields.attach.map (fun kv => jDumpStr kv.1.1 ++ ": " ++ JVal.dumps kv.1.2))
      ++ String.singleton rbrace
termination_by v => sizeOf v
decreasing_by
  · have h1 := List.sizeOf_lt_of_mem x.2
    simp only [JVal.arr.sizeOf_spec]
    omega
  · have h1 := List.sizeOf_lt_of_mem kv.2
    have h2 : sizeOf kv.1.2 < sizeOf kv.1 := by
      obtain ⟨a, b⟩ := kv.1
      simp only [Prod.mk.sizeOf_spec]
      omega
    simp only [JVal.obj.sizeOf_spec]
    omega

/-! ## Data model: persisted turns, messages, attachments

Mirrors `storage/models.py` (`ConversationRecord`) and the message shapes
produced by `ai/conversation.py`.  The `timestamp`/`id` bookkeeping fields
of `ConversationRecord` (set by the storage layer) are omitted: ordering
is represented by list order of the persisted-turn ledger. -/

/-- `storage.models.ConversationRecord`. -/
structure ConversationRecord where
  bot_id : String
  session_id : String
  chat_id : String
  role : String
  content : String
  model : String := ""
  token_input : Nat := 0
  token_output : Nat := 0
  tool_name : Option String := none
  tool_call_id : Option String := none
deriving Repr, DecidableEq, Inhabited

/-- A content block inside an API message (`dict` blocks in the source). -/
inductive CBlock where
  | text (t : String)
  | toolUse (id name : String) (input : JVal)
  | toolResult (toolUseId content : String)
  | image (mediaType data : String)
deriving Inhabited

/-- The `content` field of a message: a plain string or a block list. -/
inductive MsgContent where
  | str (s : String)
  | blocks (bs : List CBlock)
deriving Inhabited

/-- One message in the wire-shape list consumed by a backend. -/
structure Msg where
  role : String
  content : MsgContent
deriving Inhabited

/-- `messenger.models.Attachment`: raw bytes plus media metadata. -/
structure Attachment where
  data : List Nat
  media_type : String
  filename : String

/-- External text/binary codecs used by `conversation.build_messages`:
`base64.b64encode(...).decode()`, strict `bytes.decode("utf-8")`
(`none` models a raised `UnicodeDecodeError`), and lossy
`bytes.decode("utf-8", errors="replace")`.  These are Python-runtime
collaborators, abstracted as function parameters. -/
structure Codec where
  b64encode : List Nat → String
  decodeUtf8 : List Nat → Option String
  decodeUtf8Replace : List Nat → String

/-- Python `x or default` for the optional string fields of a record:
`None` and the empty string both fall back. -/
def pyOr (o : Option String) (dflt : String) : String :=
  match o with
  | some s => if s = "" then dflt else s
  | none => dflt

/-! ## `ai/conversation.py` -/

/-- `_TEXT_PREFIXES` / `_TEXT_TYPES` membership:
`_is_text_media_type`. -/
def is_text_media_type (media_type : String) : Bool :=
  strStartsWith media_type "text/" ||
    media_type ∈ ["application/json", "application/xml", "application/javascript",
      "application/x-yaml", "application/sql", "application/x-sh",
      "application/xhtml+xml", "application/csv"]

/-- `json.loads(history[i].content)` with `{}` on parse failure, as in the
`tool_use` branch of `build_messages`. -/
def parseToolInput (content : String) : JVal :=
  match jLoads content with
  | some v => v
  | none => .obj []

/-- The `tool_use` block built for record `r` at history index `i`. -/
def tool_use_block (r : ConversationRecord) (i : Nat) : CBlock :=
  .toolUse (pyOr r.tool_call_id ("tool_" ++ toString i))
    (pyOr r.tool_name "unknown") (parseToolInput r.content)

/-- The `tool_result` block built for record `r` at history index `i`. -/
def tool_result_block (r : ConversationRecord) (i : Nat) : CBlock :=
  .toolResult (pyOr r.tool_call_id ("tool_" ++ toString i)) r.content

/-- Collect the maximal leading run of records with role `role`,
returning the blocks (built by `mk` with running indices), the remaining
records, and the index after the run.  Models the inner `while` loops of
`build_messages`. -/
def takeRun (role : String) (mk : ConversationRecord → Nat → CBlock) :
    List ConversationRecord → Nat → List CBlock × List ConversationRecord × Nat
  | [], i => ([], [], i)
  | r :: rest, i =>
    if r.role = role then
      let res := takeRun role mk rest (i + 1)
      (mk r i :: res.1, res.2.1, res.2.2)
    else ([], r :: rest, i)

theorem takeRun_rest_length (role : String) (mk : ConversationRecord → Nat → CBlock) :
    ∀ (h : List ConversationRecord) (i : Nat),
      (takeRun role mk h i).2.1.length ≤ h.length := by
  intro h
  induction h with
  | nil => intro i; simp [takeRun]
  | cons r rest ih =>
    intro i
    simp only [takeRun]
    split
    · have := ih (i + 1)
      simp only [List.length_cons]
      omega
    · simp

/-- The record-to-message translation of `build_messages` (the main
`while i < len(history)` loop), before attachment handling.  The index
argument is the running value of `i`, used for positional fallback ids. -/
def assemble : List ConversationRecord → Nat → List Msg
  | [], _ => []
  | r :: rest, i =>
    if r.role = "user" then
      ⟨"user", .str r.content⟩ :: assemble rest (i + 1)
    else if r.role = "assistant" then
      ⟨"assistant", .str r.content⟩ :: assemble rest (i + 1)
    else if hTu : r.role = "tool_use" then
      let res := takeRun "tool_use" tool_use_block (r :: rest) i
      ⟨"assistant", .blocks res.1⟩ :: assemble res.2.1 res.2.2
    else if hTr : r.role = "tool_result" then
      let res := takeRun "tool_result" tool_result_block (r :: rest) i
      ⟨"user", .blocks res.1⟩ :: assemble res.2.1 res.2.2
    else
      assemble rest (i + 1)
termination_by h _ => h.length
decreasing_by
  · simp
  · simp
  · have h1 := takeRun_rest_length "tool_use" tool_use_block rest (i + 1)
    simp only [takeRun, hTu, if_true, List.length_cons, reduceIte]
    omega
  · have h1 := takeRun_rest_length "tool_result" tool_result_block rest (i + 1)
    simp only [takeRun, hTr, if_true, List.length_cons, reduceIte]
    omega
  · simp

/-- Python's `f"{len(att.data)/1024:.1f}"`: the attachment size in KB with
one decimal digit, rounding half to even exactly as float formatting does
on the (exactly representable) value `n / 1024`. -/
def formatKb (n : Nat) : String :=
  let q := 5 * n
  let base := q / 512
  let r := q % 512
  let tenths :=
    if 2 * r > 512 then base + 1
    else if 2 * r < 512 then base
    else if base % 2 = 0 then base else base + 1
  toString (tenths / 10) ++ "." ++ toString (tenths % 10)

/-- The block appended for one attachment (the per-attachment body of the
`for att in current_attachments` loop in `build_messages`). -/
def attachment_block (codec : Codec) (att : Attachment) : CBlock :=
  if strStartsWith att.media_type "image/" then
    .image att.media_type (codec.b64encode att.data)
  else if is_text_media_type att.media_type then
    let text_content :=
      match codec.decodeUtf8 att.data with
      | some s => s
      | none => codec.decodeUtf8Replace att.data
    .text ("[File: " ++ att.filename ++ "]\n" ++ text_content)
  else
    .text ("[File: " ++ att.filename ++ " (" ++ att.media_type ++ ", " ++
      formatKb att.data.length ++ " KB) â€” binary file, content not shown]")

/-- A plain-string content is converted to a one-element block list before
blocks are appended (`content = [{"type": "text", "text": content}]`). -/
def toBlockList : MsgContent → List CBlock
  | .str s => [.text s]
  | .blocks bs => bs

/-- The backward scan over messages appending attachment blocks to the
most recent `user` message (`for idx in range(len(messages)-1, -1, -1)`),
expressed on the reversed list. -/
def appendAttachmentsRev (codec : Codec) (atts : List Attachment) :
    List Msg → List Msg
  | [] => []
  | m :: rest =>
    if m.role = "user" then
      ⟨"user", .blocks (toBlockList m.content ++ atts.map (attachment_block codec))⟩ :: rest
    else m :: appendAttachmentsRev codec atts rest

/-- Attachment handling of `build_messages` (lines guarded by
`if current_attachments and messages`). -/
def append_attachments (codec : Codec) (atts : List Attachment)
    (msgs : List Msg) : List Msg :=
  (appendAttachmentsRev codec atts msgs.reverse).reverse

/-- `conversation.build_messages`: full translation of stored records into
backend messages, with current-turn attachments appended to the most
recent user message.  An empty attachment list models both `None` and `[]`
(both falsy in the source guard). -/
def build_messages (codec : Codec) (history : List ConversationRecord)
    (current_attachments : List Attachment) : List Msg :=
  let messages := assemble history 0
  if current_attachments.isEmpty || messages.isEmpty then
    messages
  else
    append_attachments codec current_attachments messages

/-! ## `ai/tool_runner.py`: the structured tool loop

The Anthropic backend's raw response is a list of content blocks.  The
backend itself (`ai_client.create_message`) is an opaque function of the
call index within this invocation, the system prompt and the message list;
`max_tokens`/`temperature`/`tool_defs` are forwarded verbatim by the loop
and absorbed into that function.  The cancellation event is an oracle over
check indices; the concurrent `asyncio.gather` batch is serialized in
block order (results are keyed positionally by the source, so this is one
admissible schedule). -/

/-- A `tool_use` content block of a structured backend response. -/
structure ToolUseBlock where
  id : String
  name : String
  input : JVal
deriving Inhabited

/-- One content block of a structured backend response. -/
inductive RespBlock where
  | text (t : String)
  | toolUse (b : ToolUseBlock)
deriving Inhabited

/-- A structured backend response (`response.content`, `response.usage`). -/
structure ApiResponse where
  content : List RespBlock
  input_tokens : Nat
  output_tokens : Nat
deriving Inhabited

/-- Outcome of awaiting `tool.execute(**input)`: a returned string, a
raised `Exception` (with its text), or a raised `asyncio.CancelledError`. -/
inductive ToolOutcome where
  | ok (result : String)
  | raise (msg : String)
  | cancelled
deriving Inhabited

/-- A tool capability's `execute`, as a function of its parsed input. -/
def ToolFn := JVal → ToolOutcome

/-- `ToolRegistry.get`: name → capability lookup. -/
def Registry := String → Option ToolFn

/-- `[b for b in content_blocks if b.type == "tool_use"]`. -/
def toolUsesOf : List RespBlock → List ToolUseBlock
  | [] => []
  | .text _ :: rest => toolUsesOf rest
  | .toolUse b :: rest => b :: toolUsesOf rest

/-- `[b.text for b in content_blocks if b.type == "text"]`. -/
def textsOf : List RespBlock → List String
  | [] => []
  | .text t :: rest => t :: textsOf rest
  | .toolUse _ :: rest => textsOf rest

/-- The assistant-message content preserving interleaved text and
tool-use blocks in original order. -/
def respBlocksToContent : List RespBlock → List CBlock
  | [] => []
  | .text t :: rest => .text t :: respBlocksToContent rest
  | .toolUse b :: rest => .toolUse b.id b.name b.input :: respBlocksToContent rest

/-- In-flight state of one orchestration invocation: the accumulated
message list, the ledger of turns persisted so far (`save_turn` calls in
order), the number of backend calls made, and the number of cancellation
checks performed. -/
structure LoopState where
  messages : List Msg
  turns : List ConversationRecord
  calls : Nat
  checks : Nat
deriving Inhabited

/-- The cancellation sentinel returned by both loops. -/
def cancelSentinel : String := "[작업이 중단되었습니다]"

/-- The round-limit sentinel returned by both loops. -/
def limitSentinel : String := "[Tool execution limit reached]"

/-- `MAX_TOOL_ROUNDS` (identical in `tool_runner.py` and `handler.py`). -/
def MAX_TOOL_ROUNDS : Nat := 10

/-- How one loop iteration ended: a final text return, a cancellation
return, or continuation into the next round. -/
inductive StepOut where
  | final (text : String)
  | cancelled
  | next
deriving DecidableEq

/-- `f"Error: unknown tool '{name}'"`. -/
def unknownToolError (name : String) : String :=
  "Error: unknown tool " ++ sq ++ name ++ sq

/-- The `tool_use` `ConversationRecord` persisted for one invocation
request. -/
def tool_use_turn (bot_id session_id chat_id model : String)
    (input_tokens output_tokens : Nat) (b : ToolUseBlock) : ConversationRecord :=
  { bot_id := bot_id, session_id := session_id, chat_id := chat_id,
    role := "tool_use", content := b.input.dumps, model := model,
    token_input := input_tokens, token_output := output_tokens,
    tool_name := some b.name, tool_call_id := some b.id }

/-- `_execute_one`: one tool invocation inside the concurrent batch,
returning `(tool_use_id, result_text)`.  `check` is the index of the
cancellation check performed at its start. -/
def execute_one (reg : Registry) (cancel : Nat → Bool) (check : Nat)
    (b : ToolUseBlock) : String × String :=
  (b.id,
    if cancel check then "[Cancelled]"
    else
      match reg b.name with
      | none => unknownToolError b.name
      | some tool =>
        match tool b.input with
        | .ok result => result
        | .raise msg => "Error executing " ++ b.name ++ ": " ++ msg
        | .cancelled => "[Cancelled]")

/-- `asyncio.gather(*(_execute_one(b) for b in tool_use_blocks))`,
serialized in block order with consecutive check indices. -/
def executeBatch (reg : Registry) (cancel : Nat → Bool) (check : Nat) :
    List ToolUseBlock → List (String × String)
  | [] => []
  | b :: bs => execute_one reg cancel check b :: executeBatch reg cancel (check + 1) bs

/-- The `tool_result` `ConversationRecord` persisted for one batch result
(`matching_block` is looked up by id, as in the source). -/
def tool_result_turn (bot_id session_id chat_id model : String)
    (tool_use_blocks : List ToolUseBlock) (p : String × String) : ConversationRecord :=
  { bot_id := bot_id, session_id := session_id, chat_id := chat_id,
    role := "tool_result", content := p.2, model := model,
    tool_name := (tool_use_blocks.find? (fun b => b.id == p.1)).map (fun b => b.name),
    tool_call_id := some p.1 }

/-- One iteration of the `while rounds < MAX_TOOL_ROUNDS` body of
`run_tool_loop`. -/
def structStep (backend : Nat → String → List Msg → ApiResponse)
    (reg : Registry) (cancel : Nat → Bool)
    (system model bot_id session_id chat_id : String)
    (st : LoopState) : LoopState × StepOut :=
  if cancel st.checks then
    ({ st with checks := st.checks + 1 }, .cancelled)
  else
    let st1 : LoopState := { st with checks := st.checks + 1 }
    let response := backend st1.calls system st1.messages
    let st2 : LoopState := { st1 with calls := st1.calls + 1 }
    let tool_use_blocks := toolUsesOf response.content
    let text_blocks := textsOf response.content
    let st3 : LoopState := { st2 with turns := st2.turns ++
      (tool_use_blocks.map
        (tool_use_turn bot_id session_id chat_id model response.input_tokens response.output_tokens)) }
    match tool_use_blocks with
    | [] =>
      let final_text := String.intercalate "\n" text_blocks
      let assistant_turn : ConversationRecord :=
        { bot_id := bot_id, session_id := session_id, chat_id := chat_id,
          role := "assistant", content := final_text, model := model,
          token_input := response.input_tokens,
          token_output := response.output_tokens }
      ({ st3 with
          messages := st3.messages ++ [⟨"assistant", .str final_text⟩],
          turns := st3.turns ++ [assistant_turn] }, .final final_text)
    | _ :: _ =>
      let st4 : LoopState := { st3 with
        messages := st3.messages ++
          [⟨"assistant", .blocks (respBlocksToContent response.content)⟩] }
      if cancel st4.checks then
        ({ st4 with checks := st4.checks + 1 }, .cancelled)
      else
        let st5 : LoopState := { st4 with checks := st4.checks + 1 }
        let results := executeBatch reg cancel st5.checks tool_use_blocks
        let st6 : LoopState := { st5 with checks := st5.checks + tool_use_blocks.length }
        ({ st6 with
            turns := st6.turns ++
              results.map (tool_result_turn bot_id session_id chat_id model tool_use_blocks),
            messages := st6.messages ++
              [⟨"user", .blocks (results.map (fun p => CBlock.toolResult p.1 p.2))⟩] },
          .next)

/-- The `while rounds < MAX_TOOL_ROUNDS` loop of `run_tool_loop`, with
`fuel = MAX_TOOL_ROUNDS - rounds` remaining rounds; falling through the
loop returns the round-limit sentinel. -/
def runToolLoopAux (backend : Nat → String → List Msg → ApiResponse)
    (reg : Registry) (cancel : Nat → Bool)
    (system model bot_id session_id chat_id : String) :
    Nat → LoopState → LoopState × String
  | 0, st => (st, limitSentinel)
  | fuel + 1, st =>
    match structStep backend reg cancel system model bot_id session_id chat_id st with
    | (st', .final text) => (st', text)
    | (st', .cancelled) => (st', cancelSentinel)
    | (st', .next) =>
      runToolLoopAux backend reg cancel system model bot_id session_id chat_id fuel st'

/-- `tool_runner.run_tool_loop`: execute the structured tool-use loop
until a final text response, cancellation, or the round limit.  Returns
the final state (messages, persisted-turn ledger, backend-call and
check counts) and the returned string. -/
def run_tool_loop (backend : Nat → String → List Msg → ApiResponse)
    (reg : Registry) (cancel : Nat → Bool)
    (system model bot_id session_id chat_id : String)
    (messages : List Msg) : LoopState × String :=
  runToolLoopAux backend reg cancel system model bot_id session_id chat_id
    MAX_TOOL_ROUNDS ⟨messages, [], 0, 0⟩

/-! ## `ai/handler.py`: the text-tagged tool loop

`TOOL_CALL_PATTERN = re.compile(r"<tool_call>\s*(\x7b.*?\x7d)\s*</tool_call>", re.DOTALL)`
and `findall` over the response text are modelled by an executable scanner
with the same semantics: left-to-right, non-overlapping matches, with the
lazy `.*?` taking the shortest body whose closing brace is followed by
optional whitespace and the closing tag.  The system-prompt and reminder
literals built by `_build_tool_system_prompt` / `_build_tool_reminder`
are natural-language presentation; they enter the loop only as opaque
strings, so the embedding takes them as parameters (the loop forwards the
system prompt to the backend and appends the reminder verbatim). -/

/-- Python's `\s` character class (ASCII part; the verified strings
contain no other whitespace). -/
def pyWs (c : Char) : Bool :=
  c == ' ' || c == '\t' || c == '\n' || c == '\r' ||
    c == Char.ofNat 12 || c == Char.ofNat 11

/-- The literal `<tool_call>` delimiter. -/
def openTagChars : List Char := "<tool_call>".data

/-- The literal `</tool_call>` delimiter. -/
def closeTagChars : List Char := "</tool_call>".data

/-- Consume an exact literal, returning the remainder. -/
def dropExact : List Char → List Char → Option (List Char)
  | [], s => some s
  | _ :: _, [] => none
  | p :: ps, c :: cs => if p = c then dropExact ps cs else none

theorem dropExact_length {p s r : List Char} (h : dropExact p s = some r) :
    r.length + p.length = s.length := by
  induction p generalizing s r with
  | nil => simp [dropExact] at h; simp [h]
  | cons x xs ih =>
    cases s with
    | nil => simp [dropExact] at h
    | cons c cs =>
      simp only [dropExact] at h
      split at h
      · have := ih h
        simp only [List.length_cons]
        omega
      · exact absurd h (by simp)

theorem dropWhile_length_le (p : Char → Bool) :
    ∀ l : List Char, (l.dropWhile p).length ≤ l.length := by
  intro l
  induction l with
  | nil => simp
  | cons c rest ih =>
    simp only [List.dropWhile]
    split
    · simp only [List.length_cons]
      omega
    · simp

/-- Find the lazy end of the tag body: the first `\x7d` that is followed
by optional whitespace and `</tool_call>`.  Returns the body (without the
closing brace) and the text after the closing tag. -/
def findCloseAux (acc : List Char) : List Char → Option (List Char × List Char)
  | [] => none
  | c :: rest =>
    if c = rbrace then
      match dropExact closeTagChars (rest.dropWhile pyWs) with
      | some after => some (acc.reverse, after)
      | none => findCloseAux (c :: acc) rest
    else findCloseAux (c :: acc) rest

theorem findCloseAux_length {acc s body after : List Char}
    (h : findCloseAux acc s = some (body, after)) : after.length ≤ s.length := by
  induction s generalizing acc with
  | nil => simp [findCloseAux] at h
  | cons c rest ih =>
    simp only [findCloseAux] at h
    split at h
    · split at h
      next heq =>
        have h1 := dropExact_length heq
        have h2 : (rest.dropWhile pyWs).length ≤ rest.length := dropWhile_length_le pyWs rest
        simp only [Option.some.injEq, Prod.mk.injEq] at h
        obtain ⟨hb, ha⟩ := h
        subst ha
        simp only [List.length_cons]
        omega
      next =>
        have := ih h
        simp only [List.length_cons]
        omega
    · have := ih h
      simp only [List.length_cons]
      omega

/-- Try to match `TOOL_CALL_PATTERN` anchored at the start of `s`,
returning the captured group (`\x7b.*?\x7d`, braces included) and the
text after the whole match. -/
def matchTagAt (s : List Char) : Option (String × List Char) :=
  match dropExact openTagChars s with
  | none => none
  | some r1 =>
    match r1.dropWhile pyWs with
    | [] => none
    | c :: r2 =>
      if c = lbrace then
        match findCloseAux [] r2 with
        | some p => some (String.mk (lbrace :: (p.1 ++ [rbrace])), p.2)
        | none => none
      else none

theorem matchTagAt_length {s : List Char} {g : String} {after : List Char}
    (h : matchTagAt s = some (g, after)) : after.length < s.length := by
  unfold matchTagAt at h
  split at h
  · exact absurd h (by simp)
  next r1 heq1 =>
    have h1 := dropExact_length heq1
    split at h
    · exact absurd h (by simp)
    next c r2 heq2 =>
      have h2 : (c :: r2).length ≤ r1.length := by
        rw [← heq2]
        exact dropWhile_length_le pyWs r1
      split at h
      · split at h
        next p heq3 =>
          obtain ⟨p1, p2⟩ := p
          have h3 := findCloseAux_length heq3
          simp only [Option.some.injEq, Prod.mk.injEq] at h
          simp only [List.length_cons, openTagChars, String.data] at h1 h2 h3 ⊢
          obtain ⟨hg, hafter⟩ := h
          subst hafter
          simp_all
          omega
        next => exact absurd h (by simp)
      · exact absurd h (by simp)

/-- `TOOL_CALL_PATTERN.findall(response_text)`: all non-overlapping
matches, scanned left to right.  The fuel argument only serves structural
termination: the scanned text strictly shrinks at every step
(`matchTagAt_length`), so any fuel of at least the text's length is
exact. -/
def scanToolCalls : Nat → List Char → List String
  | 0, _ => []
  | _, [] => []
  | fuel + 1, c :: rest =>
    match matchTagAt (c :: rest) with
    | some p => p.1 :: scanToolCalls fuel p.2
    | none => scanToolCalls fuel rest

/-- `TOOL_CALL_PATTERN.findall` on a string. -/
def findToolCalls (s : String) : List String :=
  scanToolCalls s.data.length s.data

/-- Python `str()` rendering of a parsed JSON value, used when a
non-string ends up in an f-string (approximated by JSON serialization for
non-strings; only string tool names occur in the verified properties). -/
def jvalPyStr : JVal → String
  | .str s => s
  | v => v.dumps

/-- Stand-in for the `json.JSONDecodeError` message text interpolated
into `f"[Tool Error]\n{e}"` (the exact Python wording is runtime
behaviour no verified property depends on). -/
def jsonDecodeErrorText : String := "invalid tool-call JSON"

/-- Stand-in for the `AttributeError` raised by `.get` on a non-dict. -/
def attributeErrorText : String := "tool-call payload is not an object"

/-- Stand-in for the `TypeError` raised by `**tool_input` on a non-dict. -/
def typeErrorText : String := "tool input is not an object"

/-- Result of processing one matched tag inside the per-round
`for call_json in tool_calls` loop: either one entry appended to
`tool_results`, or an immediate abort of the whole loop (pre-invocation
cancellation check fires or `execute` raises `CancelledError`). -/
inductive TagStep where
  | res (entry : String)
  | abort
deriving DecidableEq

/-- Process one matched tag: cancellation check, `json.loads`, tool
lookup by the `tool` field, sequential execution, error conversion.
`check` is the index of the pre-invocation cancellation check. -/
def ccProcessTag (reg : Registry) (cancel : Nat → Bool) (check : Nat)
    (call_json : String) : TagStep :=
  if cancel check then .abort
  else
    match jLoads call_json with
    | none => .res ("[Tool Error]\n" ++ jsonDecodeErrorText)
    | some call_data =>
      match call_data with
      | .obj fields =>
        let toolVal := (jGet fields "tool").getD (.str "")
        let inputVal := (jGet fields "input").getD (.obj [])
        match toolVal with
        | .str tool_name =>
          match reg tool_name with
          | none =>
            .res ("[Tool Result: " ++ tool_name ++ "]\n" ++ unknownToolError tool_name)
          | some tool =>
            match inputVal with
            | .obj _ =>
              match tool inputVal with
              | .ok result => .res ("[Tool Result: " ++ tool_name ++ "]\n" ++ result)
              | .raise msg => .res ("[Tool Error]\n" ++ msg)
              | .cancelled => .abort
            | _ => .res ("[Tool Error]\n" ++ typeErrorText)
        | _ =>
          .res ("[Tool Result: " ++ jvalPyStr toolVal ++ "]\n" ++
            unknownToolError (jvalPyStr toolVal))
      | _ => .res ("[Tool Error]\n" ++ attributeErrorText)

/-- Run the per-round tag loop over all matched tags; returns the number
of cancellation checks consumed and, unless the loop aborted, the
collected `tool_results` entries in order. -/
def ccRunTags (reg : Registry) (cancel : Nat → Bool) (check : Nat) :
    List String → Nat × Option (List String)
  | [] => (0, some [])
  | t :: ts =>
    match ccProcessTag reg cancel check t with
    | .abort => (1, none)
    | .res entry =>
      let rest := ccRunTags reg cancel (check + 1) ts
      (rest.1 + 1, rest.2.map (fun es => entry :: es))

/-- A text-tagged backend response (`AIResponse` in `ai/client.py`; the
backend-specific `raw` payload is unused by the loop and omitted). -/
structure AIResponse where
  text : String
  input_tokens : Nat
  output_tokens : Nat
deriving Inhabited

/-- One iteration of the `while rounds < MAX_TOOL_ROUNDS` body of
`_run_claude_code_tool_loop`. -/
def ccStep (backend : Nat → String → List Msg → AIResponse)
    (reg : Registry) (cancel : Nat → Bool)
    (full_system bot_id session_id chat_id : String)
    (st : LoopState) : LoopState × StepOut :=
  if cancel st.checks then
    ({ st with checks := st.checks + 1 }, .cancelled)
  else
    let st1 : LoopState := { st with checks := st.checks + 1 }
    let response := backend st1.calls full_system st1.messages
    let st2 : LoopState := { st1 with calls := st1.calls + 1 }
    if cancel st2.checks then
      ({ st2 with checks := st2.checks + 1 }, .cancelled)
    else
      let st3 : LoopState := { st2 with checks := st2.checks + 1 }
      let response_text := response.text
      match findToolCalls response_text with
      | [] =>
        let final_text := pyStrip response_text
        let final_turn : ConversationRecord :=
          { bot_id := bot_id, session_id := session_id, chat_id := chat_id,
            role := "assistant", content := final_text,
            token_input := response.input_tokens,
            token_output := response.output_tokens }
        ({ st3 with turns := st3.turns ++ [final_turn] }, .final final_text)
      | tool_calls =>
        let tagged_turn : ConversationRecord :=
          { bot_id := bot_id, session_id := session_id, chat_id := chat_id,
            role := "assistant", content := response_text }
        let st4 : LoopState := { st3 with
          messages := st3.messages ++ [⟨"assistant", .str response_text⟩],
          turns := st3.turns ++ [tagged_turn] }
        let run := ccRunTags reg cancel st4.checks tool_calls
        let st5 : LoopState := { st4 with checks := st4.checks + run.1 }
        match run.2 with
        | none => (st5, .cancelled)
        | some tool_results =>
          let results_text := String.intercalate "\n\n" tool_results
          let results_turn : ConversationRecord :=
            { bot_id := bot_id, session_id := session_id, chat_id := chat_id,
              role := "user", content := results_text }
          ({ st5 with
              turns := st5.turns ++ [results_turn],
              messages := st5.messages ++ [⟨"user", .str results_text⟩] },
            .next)

/-- The round loop of `_run_claude_code_tool_loop` with
`fuel = MAX_TOOL_ROUNDS - rounds` remaining rounds. -/
def ccLoopAux (backend : Nat → String → List Msg → AIResponse)
    (reg : Registry) (cancel : Nat → Bool)
    (full_system bot_id session_id chat_id : String) :
    Nat → LoopState → LoopState × String
  | 0, st => (st, limitSentinel)
  | fuel + 1, st =>
    match ccStep backend reg cancel full_system bot_id session_id chat_id st with
    | (st', .final text) => (st', text)
    | (st', .cancelled) => (st', cancelSentinel)
    | (st', .next) =>
      ccLoopAux backend reg cancel full_system bot_id session_id chat_id fuel st'

/-- The `refusal_phrases` list from `_run_claude_code_tool_loop`
(apostrophes assembled via `sq`). -/
def refusal_phrases : List String :=
  ["기능이 없", "할 수 없", "할 수가 없", "못 해", "못해",
   "지원하지 않", "불가능", "불가합니다",
   "I can" ++ sq ++ "t", "I cannot", "I don" ++ sq ++ "t have",
   "I" ++ sq ++ "m not able", "no capability", "not supported"]

/-- The corrective placeholder substituted for refusing assistant
messages. -/
def correction_note : String :=
  "[Note: This previous response was incorrect. " ++
  "Tools ARE available now. Ignore this response.]"

/-- The per-message refusal rewrite: a historical assistant message with
string content matching any refusal phrase is replaced by the corrective
placeholder. -/
def sanitizeMsg (m : Msg) : Msg :=
  if m.role = "assistant" then
    match m.content with
    | .str c =>
      if refusal_phrases.any (fun p => strContains c p) then
        ⟨"assistant", .str correction_note⟩
      else m
    | .blocks _ => m
  else m

/-- The refusal-rewriting pass over the (copied) message list. -/
def sanitizeRefusals (msgs : List Msg) : List Msg :=
  msgs.map sanitizeMsg

/-- The backward scan appending the tool reminder to the last user
message with string content, expressed on the reversed list. -/
def appendReminderRev (reminder : String) : List Msg → List Msg
  | [] => []
  | m :: rest =>
    if m.role = "user" then
      match m.content with
      | .str c => ⟨"user", .str (c ++ reminder)⟩ :: rest
      | .blocks _ => m :: appendReminderRev reminder rest
    else m :: appendReminderRev reminder rest

/-- Append the tool reminder to the most recent user message with string
content. -/
def append_tool_reminder (reminder : String) (msgs : List Msg) : List Msg :=
  (appendReminderRev reminder msgs.reverse).reverse

/-- `handler._run_claude_code_tool_loop`.  `tool_prompt` and
`tool_reminder` stand for `_build_tool_system_prompt(tools) if tools
else ""` and `_build_tool_reminder(tools) if tools else ""`: fixed
natural-language strings that are a function of the selected tools,
taken as parameters (empty exactly when no tool is selected). -/
def run_claude_code_tool_loop (backend : Nat → String → List Msg → AIResponse)
    (reg : Registry) (cancel : Nat → Bool)
    (system tool_prompt tool_reminder : String)
    (bot_id session_id chat_id : String)
    (messages : List Msg) : LoopState × String :=
  let full_system := system ++ tool_prompt
  let msgs :=
    if tool_reminder = "" then messages
    else if messages.isEmpty then messages
    else append_tool_reminder tool_reminder (sanitizeRefusals messages)
  ccLoopAux backend reg cancel full_system bot_id session_id chat_id
    MAX_TOOL_ROUNDS ⟨msgs, [], 0, 0⟩

/-! ## Heap model of the message-copy in `_run_claude_code_tool_loop`

`messages = [m.copy() for m in messages]` copies each message dict into a
fresh heap cell, and the refusal rewrite / reminder append then assign
into the copied cells only (`messages[i]["content"] = ...`; the `+=` on a
string rebinds, it does not mutate).  To state that the caller's original
dicts are untouched, message dicts are modelled as addressed cells of a
store. -/

/-- A heap of message dicts, addressed by `Nat`. -/
def Store := Nat → Msg

/-- Write one cell. -/
def storeWrite (σ : Store) (a : Nat) (m : Msg) : Store :=
  fun x => if x = a then m else σ x

/-- Read a list of cells. -/
def readMsgs (σ : Store) (addrs : List Nat) : List Msg :=
  addrs.map σ

/-- `[m.copy() for m in messages]`: allocate consecutive fresh cells
holding shallow copies; returns the updated store and the copies'
addresses. -/
def copyMsgs (σ : Store) : List Nat → Nat → Store × List Nat
  | [], _ => (σ, [])
  | a :: rest, fresh =>
    let σ1 := storeWrite σ fresh (σ a)
    let res := copyMsgs σ1 rest (fresh + 1)
    (res.1, fresh :: res.2)

/-- The in-place refusal rewrite over the copied cells (the
`for i, msg in enumerate(messages)` loop). -/
def sanitizeStore (σ : Store) : List Nat → Store
  | [] => σ
  | a :: rest =>
    let m := σ a
    let σ' :=
      if m.role = "assistant" then
        match m.content with
        | .str c =>
          if refusal_phrases.any (fun p => strContains c p) then
            storeWrite σ a ⟨"assistant", .str correction_note⟩
          else σ
        | .blocks _ => σ
      else σ
    sanitizeStore σ' rest

/-- The backward reminder append over the copied cells (the
`for i in range(len(messages)-1, -1, -1)` loop), on the reversed address
list. -/
def appendReminderStoreRev (σ : Store) (reminder : String) : List Nat → Store
  | [] => σ
  | a :: rest =>
    if (σ a).role = "user" then
      match (σ a).content with
      | .str c => storeWrite σ a ⟨"user", .str (c ++ reminder)⟩
      | .blocks _ => appendReminderStoreRev σ reminder rest
    else appendReminderStoreRev σ reminder rest

/-- The whole pre-loop message preparation of
`_run_claude_code_tool_loop` (executed when the tool reminder is
non-empty and the message list non-empty), in the heap model: copy every
message dict, rewrite refusals in place, append the reminder in place. -/
def prepare_messages (σ : Store) (addrs : List Nat) (fresh : Nat)
    (reminder : String) : Store × List Nat :=
  let c := copyMsgs σ addrs fresh
  let σ2 := sanitizeStore c.1 c.2
  let σ3 := appendReminderStoreRev σ2 reminder c.2.reverse
  (σ3, c.2)

/-! ## `services/scheduler.py`: `_run_ai_task` -/

/-- The system prompt used for scheduled AI tasks. -/
def sched_system : String :=
  "You are a helpful assistant executing a scheduled task. Be concise."

/-- Observable outcome of one `_run_ai_task` invocation: the ledger of
turns persisted (in `save_turn` order), the number of backend calls made,
and the `response_text` delivered to the chat. -/
structure TaskRun where
  turns : List ConversationRecord
  calls : Nat
  response : String
deriving Inhabited

/-- `SchedulerService._run_ai_task`: persist the task prompt as a user
turn under the synthetic session id `"scheduled_{bot_id}_{chat_id}"`,
build the single-message conversation `[{"role": "user", "content":
task_prompt}]`, then either run the structured tool loop (structured
backend: all registered tools, `model=""`, no cancellation event) or make
a single CLI `chat` call (text-tagged backend) whose text is persisted as
an assistant turn.  Chunked delivery of the response text is the
adapter's concern and outside the modelled scope. -/
def run_ai_task (supports_tool_loop : Bool)
    (sBackend : Nat → String → List Msg → ApiResponse)
    (tBackend : Nat → String → List Msg → AIResponse)
    (reg : Registry) (bot_id chat_id task_prompt : String) : TaskRun :=
  let session_id := "scheduled_" ++ bot_id ++ "_" ++ chat_id
  let user_turn : ConversationRecord :=
    { bot_id := bot_id, session_id := session_id, chat_id := chat_id,
      role := "user", content := task_prompt }
  let messages : List Msg := [⟨"user", .str task_prompt⟩]
  if supports_tool_loop then
    let r := run_tool_loop sBackend reg (fun _ => false) sched_system ""
      bot_id session_id chat_id messages
    ⟨user_turn :: r.1.turns, r.1.calls, r.2⟩
  else
    let response := tBackend 0 sched_system messages
    let assistant_turn : ConversationRecord :=
      { bot_id := bot_id, session_id := session_id, chat_id := chat_id,
        role := "assistant", content := response.text }
    ⟨[user_turn, assistant_turn], 1, response.text⟩

/-! ## General lemmas about the two loops -/

theorem structStep_calls_le (backend : Nat → String → List Msg → ApiResponse)
    (reg : Registry) (cancel : Nat → Bool)
    (system model bot_id session_id chat_id : String) (st : LoopState) :
    ((structStep backend reg cancel system model bot_id session_id chat_id st).1).calls
      ≤ st.calls + 1 := by
  unfold structStep
  split
  · simp
  · dsimp only
    split
    · simp
    · split
      · simp
      · simp

theorem runToolLoopAux_calls_le (backend : Nat → String → List Msg → ApiResponse)
    (reg : Registry) (cancel : Nat → Bool)
    (system model bot_id session_id chat_id : String) :
    ∀ (fuel : Nat) (st : LoopState),
      ((runToolLoopAux backend reg cancel system model bot_id session_id chat_id
        fuel st).1).calls ≤ st.calls + fuel := by
  intro fuel
  induction fuel with
  | zero => intro st; simp [runToolLoopAux]
  | succ n ih =>
    intro st
    have hstep := structStep_calls_le backend reg cancel system model bot_id
      session_id chat_id st
    unfold runToolLoopAux
    split
    next st' text heq =>
      rw [heq] at hstep
      dsimp only at hstep ⊢
      omega
    next st' heq =>
      rw [heq] at hstep
      dsimp only at hstep ⊢
      omega
    next st' heq =>
      have hrec := ih st'
      rw [heq] at hstep
      dsimp only at hstep
      omega

theorem ccStep_calls_le (backend : Nat → String → List Msg → AIResponse)
    (reg : Registry) (cancel : Nat → Bool)
    (full_system bot_id session_id chat_id : String) (st : LoopState) :
    ((ccStep backend reg cancel full_system bot_id session_id chat_id st).1).calls
      ≤ st.calls + 1 := by
  unfold ccStep
  split
  · simp
  · dsimp only
    split
    · simp
    · split
      · simp
      · split
        · simp
        · simp

theorem ccLoopAux_calls_le (backend : Nat → String → List Msg → AIResponse)
    (reg : Registry) (cancel : Nat → Bool)
    (full_system bot_id session_id chat_id : String) :
    ∀ (fuel : Nat) (st : LoopState),
      ((ccLoopAux backend reg cancel full_system bot_id session_id chat_id
        fuel st).1).calls ≤ st.calls + fuel := by
  intro fuel
  induction fuel with
  | zero => intro st; simp [ccLoopAux]
  | succ n ih =>
    intro st
    have hstep := ccStep_calls_le backend reg cancel full_system bot_id
      session_id chat_id st
    unfold ccLoopAux
    split
    next st' text heq =>
      rw [heq] at hstep
      dsimp only at hstep ⊢
      omega
    next st' heq =>
      rw [heq] at hstep
      dsimp only at hstep ⊢
      omega
    next st' heq =>
      have hrec := ih st'
      rw [heq] at hstep
      dsimp only at hstep
      omega

theorem structStep_next (backend : Nat → String → List Msg → ApiResponse)
    (reg : Registry) (system model bot_id session_id chat_id : String)
    (st : LoopState)
    (htools : toolUsesOf (backend st.calls system st.messages).content ≠ []) :
    (structStep backend reg (fun _ => false) system model bot_id session_id chat_id st).2
      = .next ∧
    (structStep backend reg (fun _ => false) system model bot_id session_id chat_id st).1.calls
      = st.calls + 1 := by
  unfold structStep
  rcases h : toolUsesOf (backend st.calls system st.messages).content with _ | ⟨b0, bs⟩
  · exact absurd h htools
  · simp [h]

theorem ccProcessTag_ne_abort (reg : Registry) (check : Nat) (t : String)
    (hreg : ∀ name f, reg name = some f → ∀ v, f v ≠ .cancelled) :
    ccProcessTag reg (fun _ => false) check t ≠ .abort := by
  unfold ccProcessTag
  simp only [Bool.false_eq_true, reduceIte]
  cases hj : jLoads t with
  | none => simp
  | some call_data =>
    cases call_data with
    | obj fields =>
      dsimp only
      rcases ht : (jGet fields "tool").getD (.str "") with _ | _ | _ | name | _ | _
        <;> simp only
      case str =>
        cases hr : reg name with
        | none => simp
        | some tool =>
          rcases hi : (jGet fields "input").getD (.obj []) with _ | _ | _ | _ | _ | ifields
            <;> simp only <;> try simp
          case obj =>
            cases ho : tool (.obj ifields) with
            | ok result => simp
            | raise msg => simp
            | cancelled => exact absurd ho (hreg name tool hr (.obj ifields))
      all_goals simp
    | null => simp
    | bool b => simp
    | num raw => simp
    | str s => simp
    | arr elems => simp

theorem ccRunTags_ne_none (reg : Registry)
    (hreg : ∀ name f, reg name = some f → ∀ v, f v ≠ .cancelled) :
    ∀ (tags : List String) (check : Nat),
      (ccRunTags reg (fun _ => false) check tags).2 ≠ none := by
  intro tags
  induction tags with
  | nil => intro check; simp [ccRunTags]
  | cons t ts ih =>
    intro check
    unfold ccRunTags
    cases hp : ccProcessTag reg (fun _ => false) check t with
    | abort => exact absurd hp (ccProcessTag_ne_abort reg check t hreg)
    | res entry =>
      dsimp only
      have := ih (check + 1)
      cases hr : (ccRunTags reg (fun _ => false) (check + 1) ts).2 with
      | none => exact absurd hr this
      | some es => simp [hr]

theorem ccStep_next (backend : Nat → String → List Msg → AIResponse)
    (reg : Registry) (full_system bot_id session_id chat_id : String)
    (st : LoopState)
    (htags : findToolCalls (backend st.calls full_system st.messages).text ≠ [])
    (hreg : ∀ name f, reg name = some f → ∀ v, f v ≠ .cancelled) :
    (ccStep backend reg (fun _ => false) full_system bot_id session_id chat_id st).2
      = .next ∧
    (ccStep backend reg (fun _ => false) full_system bot_id session_id chat_id st).1.calls
      = st.calls + 1 := by
  unfold ccStep
  rcases h : findToolCalls (backend st.calls full_system st.messages).text with _ | ⟨t0, ts⟩
  · exact absurd h htags
  · have hsome := ccRunTags_ne_none reg hreg (t0 :: ts) (st.checks + 2)
    cases hr : (ccRunTags reg (fun _ => false) (st.checks + 2) (t0 :: ts)).2 with
    | none => exact absurd hr hsome
    | some es => simp [h, hr]

theorem runToolLoopAux_limit (backend : Nat → String → List Msg → ApiResponse)
    (reg : Registry) (system model bot_id session_id chat_id : String)
    (htools : ∀ n sys ms, toolUsesOf (backend n sys ms).content ≠ []) :
    ∀ (fuel : Nat) (st : LoopState),
      (runToolLoopAux backend reg (fun _ => false) system model bot_id session_id
        chat_id fuel st).2 = limitSentinel ∧
      (runToolLoopAux backend reg (fun _ => false) system model bot_id session_id
        chat_id fuel st).1.calls = st.calls + fuel := by
  intro fuel
  induction fuel with
  | zero => intro st; simp [runToolLoopAux]
  | succ n ih =>
    intro st
    obtain ⟨hout, hcalls⟩ := structStep_next backend reg system model bot_id
      session_id chat_id st (htools st.calls system st.messages)
    unfold runToolLoopAux
    split
    next st' text heq => rw [heq] at hout; simp at hout
    next st' heq => rw [heq] at hout; simp at hout
    next st' heq =>
      rw [heq] at hcalls
      dsimp only at hcalls
      obtain ⟨h1, h2⟩ := ih st'
      refine ⟨h1, ?_⟩
      rw [h2, hcalls]
      omega

theorem ccLoopAux_limit (backend : Nat → String → List Msg → AIResponse)
    (reg : Registry) (full_system bot_id session_id chat_id : String)
    (htags : ∀ n sys ms, findToolCalls (backend n sys ms).text ≠ [])
    (hreg : ∀ name f, reg name = some f → ∀ v, f v ≠ .cancelled) :
    ∀ (fuel : Nat) (st : LoopState),
      (ccLoopAux backend reg (fun _ => false) full_system bot_id session_id
        chat_id fuel st).2 = limitSentinel ∧
      (ccLoopAux backend reg (fun _ => false) full_system bot_id session_id
        chat_id fuel st).1.calls = st.calls + fuel := by
  intro fuel
  induction fuel with
  | zero => intro st; simp [ccLoopAux]
  | succ n ih =>
    intro st
    obtain ⟨hout, hcalls⟩ := ccStep_next backend reg full_system bot_id
      session_id chat_id st (htags st.calls full_system st.messages) hreg
    unfold ccLoopAux
    split
    next st' text heq => rw [heq] at hout; simp at hout
    next st' heq => rw [heq] at hout; simp at hout
    next st' heq =>
      rw [heq] at hcalls
      dsimp only at hcalls
      obtain ⟨h1, h2⟩ := ih st'
      refine ⟨h1, ?_⟩
      rw [h2, hcalls]
      omega

theorem runToolLoopAux_cancel_first (backend : Nat → String → List Msg → ApiResponse)
    (reg : Registry) (cancel : Nat → Bool)
    (system model bot_id session_id chat_id : String)
    (fuel : Nat) (st : LoopState) (hc : cancel st.checks = true) :
    runToolLoopAux backend reg cancel system model bot_id session_id chat_id
      (fuel + 1) st = ({ st with checks := st.checks + 1 }, cancelSentinel) := by
  unfold runToolLoopAux structStep
  simp [hc]

theorem ccLoopAux_cancel_first (backend : Nat → String → List Msg → AIResponse)
    (reg : Registry) (cancel : Nat → Bool)
    (full_system bot_id session_id chat_id : String)
    (fuel : Nat) (st : LoopState) (hc : cancel st.checks = true) :
    ccLoopAux backend reg cancel full_system bot_id session_id chat_id
      (fuel + 1) st = ({ st with checks := st.checks + 1 }, cancelSentinel) := by
  unfold ccLoopAux ccStep
  simp [hc]

/-- C1: in both orchestration loops (`run_tool_loop` and
`_run_claude_code_tool_loop`), if every backend response contains
tool-call instructions then (for any behaviour of the cancellation
signal) at most `MAX_TOOL_ROUNDS = 10` backend calls are made, and in the
cancellation-free run the engine makes exactly 10 backend calls and
returns the round-limit sentinel — an 11th call never happens and the
loop terminates.  (For the text-tagged loop, absence of cancellation also
means no tool raises `asyncio.CancelledError`, the loop's only other
cancellation source.) -/
theorem spec_C1 :
    (∀ (backend : Nat → String → List Msg → ApiResponse) (reg : Registry)
        (system model bot_id session_id chat_id : String) (messages : List Msg),
      (∀ n sys ms, toolUsesOf (backend n sys ms).content ≠ []) →
      (∀ cancel, (run_tool_loop backend reg cancel system model bot_id session_id
          chat_id messages).1.calls ≤ MAX_TOOL_ROUNDS) ∧
      (run_tool_loop backend reg (fun _ => false) system model bot_id session_id
          chat_id messages).1.calls = MAX_TOOL_ROUNDS ∧
      (run_tool_loop backend reg (fun _ => false) system model bot_id session_id
          chat_id messages).2 = limitSentinel) ∧
    (∀ (backend : Nat → String → List Msg → AIResponse) (reg : Registry)
        (system tool_prompt tool_reminder bot_id session_id chat_id : String)
        (messages : List Msg),
      (∀ n sys ms, findToolCalls (backend n sys ms).text ≠ []) →
      (∀ name f, reg name = some f → ∀ v, f v ≠ .cancelled) →
      (∀ cancel, (run_claude_code_tool_loop backend reg cancel system tool_prompt
          tool_reminder bot_id session_id chat_id messages).1.calls ≤ MAX_TOOL_ROUNDS) ∧
      (run_claude_code_tool_loop backend reg (fun _ => false) system tool_prompt
          tool_reminder bot_id session_id chat_id messages).1.calls = MAX_TOOL_ROUNDS ∧
      (run_claude_code_tool_loop backend reg (fun _ => false) system tool_prompt
          tool_reminder bot_id session_id chat_id messages).2 = limitSentinel) := by
  constructor
  · intro backend reg system model bot_id session_id chat_id messages htools
    refine ⟨?_, ?_, ?_⟩
    · intro cancel
      have := runToolLoopAux_calls_le backend reg cancel system model bot_id
        session_id chat_id MAX_TOOL_ROUNDS ⟨messages, [], 0, 0⟩
      simpa [run_tool_loop] using this
    · have := (runToolLoopAux_limit backend reg system model bot_id session_id
        chat_id htools MAX_TOOL_ROUNDS ⟨messages, [], 0, 0⟩).2
      simpa [run_tool_loop] using this
    · have := (runToolLoopAux_limit backend reg system model bot_id session_id
        chat_id htools MAX_TOOL_ROUNDS ⟨messages, [], 0, 0⟩).1
      simpa [run_tool_loop] using this
  · intro backend reg system tool_prompt tool_reminder bot_id session_id chat_id
      messages htags hreg
    refine ⟨?_, ?_, ?_⟩
    · intro cancel
      have := ccLoopAux_calls_le backend reg cancel (system ++ tool_prompt) bot_id
        session_id chat_id MAX_TOOL_ROUNDS
      unfold run_claude_code_tool_loop
      dsimp only
      split
      · have h := this ⟨messages, [], 0, 0⟩
        simpa using h
      · split
        · have h := this ⟨messages, [], 0, 0⟩
          simpa using h
        · have h := this ⟨append_tool_reminder tool_reminder (sanitizeRefusals messages), [], 0, 0⟩
          simpa using h
    · have := fun st => (ccLoopAux_limit backend reg (system ++ tool_prompt) bot_id
        session_id chat_id htags hreg MAX_TOOL_ROUNDS st).2
      unfold run_claude_code_tool_loop
      dsimp only
      split
      · simpa using this ⟨messages, [], 0, 0⟩
      · split
        · simpa using this ⟨messages, [], 0, 0⟩
        · simpa using this ⟨append_tool_reminder tool_reminder (sanitizeRefusals messages), [], 0, 0⟩
    · have := fun st => (ccLoopAux_limit backend reg (system ++ tool_prompt) bot_id
        session_id chat_id htags hreg MAX_TOOL_ROUNDS st).1
      unfold run_claude_code_tool_loop
      dsimp only
      split
      · exact this ⟨messages, [], 0, 0⟩
      · split
        · exact this ⟨messages, [], 0, 0⟩
        · exact this ⟨append_tool_reminder tool_reminder (sanitizeRefusals messages), [], 0, 0⟩

/-- A structured backend that always asks for a tool call. -/
def c1_sbackend : Nat → String → List Msg → ApiResponse :=
  fun _ _ _ => ⟨[.toolUse ⟨"toolu_1", "browser", .obj []⟩], 3, 4⟩

/-- A text-tagged backend that always emits one tool-call tag. -/
def c1_tbackend : Nat → String → List Msg → AIResponse :=
  fun _ _ _ =>
    ⟨"<tool_call>" ++ String.singleton lbrace ++ "\"tool\": \"browser\", \"input\": " ++
      String.singleton lbrace ++ String.singleton rbrace ++ String.singleton rbrace ++
      "</tool_call>", 0, 0⟩

/-- An empty tool registry. -/
def c1_registry : Registry := fun _ => none

theorem spec_C1_witness :
    (run_tool_loop c1_sbackend c1_registry (fun _ => false) "sys" "model" "bot"
      "sess" "chat" [⟨"user", .str "hi"⟩]).1.calls = MAX_TOOL_ROUNDS ∧
    (run_tool_loop c1_sbackend c1_registry (fun _ => false) "sys" "model" "bot"
      "sess" "chat" [⟨"user", .str "hi"⟩]).2 = limitSentinel ∧
    (run_claude_code_tool_loop c1_tbackend c1_registry (fun _ => false) "sys" ""
      "" "bot" "sess" "chat" [⟨"user", .str "hi"⟩]).1.calls = MAX_TOOL_ROUNDS ∧
    (run_claude_code_tool_loop c1_tbackend c1_registry (fun _ => false) "sys" ""
      "" "bot" "sess" "chat" [⟨"user", .str "hi"⟩]).2 = limitSentinel := by
  have h1 := spec_C1.1 c1_sbackend c1_registry "sys" "model" "bot" "sess" "chat"
    [⟨"user", .str "hi"⟩] (fun _ _ _ => by simp [c1_sbackend, toolUsesOf])
  have h2 := spec_C1.2 c1_tbackend c1_registry "sys" "" "" "bot" "sess" "chat"
    [⟨"user", .str "hi"⟩] (fun n sys ms => by simp only [c1_tbackend]; decide)
    (fun name f hf => by simp [c1_registry] at hf)
  exact ⟨h1.2.1, h1.2.2, h2.2.1, h2.2.2⟩

/-- C2: in both loop variants, if the cancellation signal is already set
before the first backend call, the engine makes zero backend calls and
returns the cancellation sentinel string. -/
theorem spec_C2 (sBackend : Nat → String → List Msg → ApiResponse)
    (tBackend : Nat → String → List Msg → AIResponse) (reg : Registry)
    (cancel : Nat → Bool)
    (system model tool_prompt tool_reminder bot_id session_id chat_id : String)
    (messages : List Msg) (hc : cancel 0 = true) :
    (run_tool_loop sBackend reg cancel system model bot_id session_id chat_id
      messages).2 = cancelSentinel ∧
    (run_tool_loop sBackend reg cancel system model bot_id session_id chat_id
      messages).1.calls = 0 ∧
    (run_claude_code_tool_loop tBackend reg cancel system tool_prompt
      tool_reminder bot_id session_id chat_id messages).2 = cancelSentinel ∧
    (run_claude_code_tool_loop tBackend reg cancel system tool_prompt
      tool_reminder bot_id session_id chat_id messages).1.calls = 0 := by
  have hs := runToolLoopAux_cancel_first sBackend reg cancel system model bot_id
    session_id chat_id 9 ⟨messages, [], 0, 0⟩ hc
  have ht1 := ccLoopAux_cancel_first tBackend reg cancel (system ++ tool_prompt)
    bot_id session_id chat_id 9 ⟨messages, [], 0, 0⟩ hc
  have ht2 := ccLoopAux_cancel_first tBackend reg cancel (system ++ tool_prompt)
    bot_id session_id chat_id 9
    ⟨append_tool_reminder tool_reminder (sanitizeRefusals messages), [], 0, 0⟩ hc
  refine ⟨?_, ?_, ?_, ?_⟩
  · rw [run_tool_loop]
    show (runToolLoopAux sBackend reg cancel system model bot_id session_id
      chat_id (9 + 1) ⟨messages, [], 0, 0⟩).2 = cancelSentinel
    rw [hs]
  · rw [run_tool_loop]
    show (runToolLoopAux sBackend reg cancel system model bot_id session_id
      chat_id (9 + 1) ⟨messages, [], 0, 0⟩).1.calls = 0
    rw [hs]
  · unfold run_claude_code_tool_loop
    dsimp only
    split
    · show (ccLoopAux tBackend reg cancel (system ++ tool_prompt) bot_id
        session_id chat_id (9 + 1) ⟨messages, [], 0, 0⟩).2 = cancelSentinel
      rw [ht1]
    · split
      · show (ccLoopAux tBackend reg cancel (system ++ tool_prompt) bot_id
          session_id chat_id (9 + 1) ⟨messages, [], 0, 0⟩).2 = cancelSentinel
        rw [ht1]
      · show (ccLoopAux tBackend reg cancel (system ++ tool_prompt) bot_id
          session_id chat_id (9 + 1)
          ⟨append_tool_reminder tool_reminder (sanitizeRefusals messages), [], 0, 0⟩).2
          = cancelSentinel
        rw [ht2]
  · unfold run_claude_code_tool_loop
    dsimp only
    split
    · show (ccLoopAux tBackend reg cancel (system ++ tool_prompt) bot_id
        session_id chat_id (9 + 1) ⟨messages, [], 0, 0⟩).1.calls = 0
      rw [ht1]
    · split
      · show (ccLoopAux tBackend reg cancel (system ++ tool_prompt) bot_id
          session_id chat_id (9 + 1) ⟨messages, [], 0, 0⟩).1.calls = 0
        rw [ht1]
      · show (ccLoopAux tBackend reg cancel (system ++ tool_prompt) bot_id
          session_id chat_id (9 + 1)
          ⟨append_tool_reminder tool_reminder (sanitizeRefusals messages), [], 0, 0⟩).1.calls
          = 0
        rw [ht2]

theorem spec_C2_witness :
    (run_tool_loop c1_sbackend c1_registry (fun _ => true) "sys" "model" "bot"
      "sess" "chat" [⟨"user", .str "hi"⟩]).2 = cancelSentinel ∧
    (run_tool_loop c1_sbackend c1_registry (fun _ => true) "sys" "model" "bot"
      "sess" "chat" [⟨"user", .str "hi"⟩]).1.calls = 0 ∧
    (run_claude_code_tool_loop c1_tbackend c1_registry (fun _ => true) "sys" ""
      "" "bot" "sess" "chat" [⟨"user", .str "hi"⟩]).2 = cancelSentinel ∧
    (run_claude_code_tool_loop c1_tbackend c1_registry (fun _ => true) "sys" ""
      "" "bot" "sess" "chat" [⟨"user", .str "hi"⟩]).1.calls = 0 := by
  have h := spec_C2 c1_sbackend c1_tbackend c1_registry (fun _ => true) "sys"
    "model" "" "" "bot" "sess" "chat" [⟨"user", .str "hi"⟩] rfl
  exact h

/-! ## The §8 text-tagged scenario (C4) -/

/-- Codec parameters are irrelevant here (no attachments). -/
def c4_codec : Codec := ⟨fun _ => "", fun _ => none, fun _ => ""⟩

/-- The user turn persisted by `MessageHandler.handle` before the loop
runs (the scenario has no attachments, so `save_text` is the raw text). -/
def c4_user_record : ConversationRecord :=
  { bot_id := "bot", session_id := "sess", chat_id := "chat",
    role := "user", content := "List the files" }

/-- The first backend response: exactly one
`\x7b"tool": "filesystem", "input": \x7b"action": "list", "path": "."\x7d\x7d` tag. -/
def c4_tagged : String :=
  "<tool_call>\n" ++ String.singleton lbrace ++ "\"tool\": \"filesystem\", \"input\": " ++
    String.singleton lbrace ++ "\"action\": \"list\", \"path\": \".\"" ++ String.singleton rbrace ++
    String.singleton rbrace ++ "\n</tool_call>"

/-- Text-tagged backend: first call returns the tagged text, the second
returns plain text "Found 2 files". -/
def c4_backend : Nat → String → List Msg → AIResponse :=
  fun n _ _ => if n = 0 then ⟨c4_tagged, 11, 22⟩ else ⟨"Found 2 files", 5, 7⟩

/-- Registry with the filesystem capability returning "a.txt, b.txt". -/
def c4_registry : Registry :=
  fun name => if name = "filesystem" then some (fun _ => .ok "a.txt, b.txt") else none

/-- C4: in the §8 text-tagged scenario (first response carries exactly
one filesystem tag, the capability returns "a.txt, b.txt", second
response is plain "Found 2 files"), the engine returns "Found 2 files"
after exactly 2 backend calls, and the handle-plus-loop path persists 4
new turns: the user turn saved by `MessageHandler.handle`, an `assistant`
turn carrying the literal tagged text, a `user` turn carrying the tool
result, and the final `assistant` turn. -/
theorem spec_C4 :
    (run_claude_code_tool_loop c4_backend c4_registry (fun _ => false)
      "sys" "\n[toolprompt]" "\n\n[reminder]" "bot" "sess" "chat"
      (build_messages c4_codec [c4_user_record] [])).2 = "Found 2 files" ∧
    (run_claude_code_tool_loop c4_backend c4_registry (fun _ => false)
      "sys" "\n[toolprompt]" "\n\n[reminder]" "bot" "sess" "chat"
      (build_messages c4_codec [c4_user_record] [])).1.calls = 2 ∧
    c4_user_record :: (run_claude_code_tool_loop c4_backend c4_registry (fun _ => false)
      "sys" "\n[toolprompt]" "\n\n[reminder]" "bot" "sess" "chat"
      (build_messages c4_codec [c4_user_record] [])).1.turns =
      [c4_user_record,
       { bot_id := "bot", session_id := "sess", chat_id := "chat",
         role := "assistant", content := c4_tagged },
       { bot_id := "bot", session_id := "sess", chat_id := "chat",
         role := "user", content := "[Tool Result: filesystem]\na.txt, b.txt" },
       { bot_id := "bot", session_id := "sess", chat_id := "chat",
         role := "assistant", content := "Found 2 files",
         token_input := 5, token_output := 7 }] := by
  have hmsgs : build_messages c4_codec [c4_user_record] []
      = [⟨"user", .str "List the files"⟩] := by
    simp [build_messages, assemble, c4_user_record]
  rw [hmsgs]
  decide

/-! ## `_run_ai_task` behaviour (C3) -/

/-- A structured backend (unused by the text-tagged branch). -/
def c3_sbackend : Nat → String → List Msg → ApiResponse :=
  fun _ _ _ => ⟨[], 0, 0⟩

/-- A tagged response asking for an unknown tool. -/
def c3_tagged : String :=
  "<tool_call>" ++ String.singleton lbrace ++ "\"tool\": \"x\", \"input\": " ++
    String.singleton lbrace ++ String.singleton rbrace ++ String.singleton rbrace ++
    "</tool_call>"

/-- A text-tagged backend that always answers with a tool-call tag. -/
def c3_tbackend : Nat → String → List Msg → AIResponse :=
  fun _ _ _ => ⟨c3_tagged, 0, 0⟩

/-- An empty registry for the C3 scenario. -/
def c3_registry : Registry := fun _ => none

/-- C3 counterexample: with a text-tagged backend whose response carries a
tool-call tag, the scheduled task runner makes exactly one backend call
and delivers the raw tagged text, whereas the §4.5 tag-scanning loop on
the same single-message conversation makes 10 backend calls and returns
the round-limit sentinel — so the task runner does *not* run the
text-tagged orchestration loop for a text-tagged backend, contradicting
the claim at this input. -/
theorem spec_C3_counterexample :
    (run_ai_task false c3_sbackend c3_tbackend c3_registry "bot" "chat" "do it").calls = 1 ∧
    (run_ai_task false c3_sbackend c3_tbackend c3_registry "bot" "chat" "do it").response
      = c3_tagged ∧
    (run_claude_code_tool_loop c3_tbackend c3_registry (fun _ => false) sched_system
      "" "" "bot" "scheduled_bot_chat" "chat" [⟨"user", .str "do it"⟩]).1.calls = 10 ∧
    (run_claude_code_tool_loop c3_tbackend c3_registry (fun _ => false) sched_system
      "" "" "bot" "scheduled_bot_chat" "chat" [⟨"user", .str "do it"⟩]).2
      = limitSentinel ∧
    ¬((run_ai_task false c3_sbackend c3_tbackend c3_registry "bot" "chat" "do it").calls
        = (run_claude_code_tool_loop c3_tbackend c3_registry (fun _ => false) sched_system
          "" "" "bot" "scheduled_bot_chat" "chat" [⟨"user", .str "do it"⟩]).1.calls) := by
  decide

/-- C3 (amended): a scheduled task trigger persists `task_prompt` as the
sole user message of a conversation under the deterministic synthetic
session id `"scheduled_{bot_id}_{chat_id}"`.  With a structured backend,
the task runner then runs the same structured orchestration loop (§4.4)
as the live-chat path over that single-message conversation (all
registered tools, no cancellation).  With a text-tagged backend, it makes
exactly one backend call and persists and delivers that response's text
directly, without running the §4.5 tag-scanning loop. -/
theorem spec_C3_amended (sBackend : Nat → String → List Msg → ApiResponse)
    (tBackend : Nat → String → List Msg → AIResponse) (reg : Registry)
    (bot_id chat_id task_prompt : String) :
    (run_ai_task true sBackend tBackend reg bot_id chat_id task_prompt).turns =
      ({ bot_id := bot_id, session_id := "scheduled_" ++ bot_id ++ "_" ++ chat_id,
         chat_id := chat_id, role := "user", content := task_prompt } :
        ConversationRecord) ::
      (run_tool_loop sBackend reg (fun _ => false) sched_system "" bot_id
        ("scheduled_" ++ bot_id ++ "_" ++ chat_id) chat_id
        [⟨"user", .str task_prompt⟩]).1.turns ∧
    (run_ai_task true sBackend tBackend reg bot_id chat_id task_prompt).calls =
      (run_tool_loop sBackend reg (fun _ => false) sched_system "" bot_id
        ("scheduled_" ++ bot_id ++ "_" ++ chat_id) chat_id
        [⟨"user", .str task_prompt⟩]).1.calls ∧
    (run_ai_task true sBackend tBackend reg bot_id chat_id task_prompt).response =
      (run_tool_loop sBackend reg (fun _ => false) sched_system "" bot_id
        ("scheduled_" ++ bot_id ++ "_" ++ chat_id) chat_id
        [⟨"user", .str task_prompt⟩]).2 ∧
    (run_ai_task false sBackend tBackend reg bot_id chat_id task_prompt).calls = 1 ∧
    (run_ai_task false sBackend tBackend reg bot_id chat_id task_prompt).response =
      (tBackend 0 sched_system [⟨"user", .str task_prompt⟩]).text ∧
    (run_ai_task false sBackend tBackend reg bot_id chat_id task_prompt).turns =
      [{ bot_id := bot_id, session_id := "scheduled_" ++ bot_id ++ "_" ++ chat_id,
         chat_id := chat_id, role := "user", content := task_prompt },
       { bot_id := bot_id, session_id := "scheduled_" ++ bot_id ++ "_" ++ chat_id,
         chat_id := chat_id, role := "assistant",
         content := (tBackend 0 sched_system [⟨"user", .str task_prompt⟩]).text }] := by
  unfold run_ai_task
  simp

theorem executeBatch_map_fst (reg : Registry) (cancel : Nat → Bool) :
    ∀ (tus : List ToolUseBlock) (check : Nat),
      (executeBatch reg cancel check tus).map Prod.fst = tus.map (fun b => b.id) := by
  intro tus
  induction tus with
  | nil => intro check; simp [executeBatch]
  | cons b bs ih => intro check; simp [executeBatch, execute_one, ih]

theorem executeBatch_length (reg : Registry) (cancel : Nat → Bool) :
    ∀ (tus : List ToolUseBlock) (check : Nat),
      (executeBatch reg cancel check tus).length = tus.length := by
  intro tus
  induction tus with
  | nil => intro check; simp [executeBatch]
  | cons b bs ih => intro check; simp [executeBatch, ih]

/-- C5: in the structured loop, whenever a backend response contains
tool-use blocks (and the loop was not already cancelled at the top of the
round), one `tool_use` turn per invocation request is persisted directly
after the tool-use turns already in the ledger — before the pre-batch
cancellation check and before any tool executes.  If the round then
aborts on the pre-batch cancellation check, nothing further is persisted
(the dangling `tool_use` turns remain); otherwise the round continues
into the next backend call and the persisted remainder is exactly one
correlating `tool_result` turn per request, keyed by the request ids, in
order. -/
theorem spec_C5 (backend : Nat → String → List Msg → ApiResponse)
    (reg : Registry) (cancel : Nat → Bool)
    (system model bot_id session_id chat_id : String) (st : LoopState)
    (hnc : cancel st.checks = false)
    (htools : toolUsesOf (backend st.calls system st.messages).content ≠ []) :
    ∃ rest : List ConversationRecord,
      (structStep backend reg cancel system model bot_id session_id chat_id st).1.turns
        = st.turns ++
          (toolUsesOf (backend st.calls system st.messages).content).map
            (tool_use_turn bot_id session_id chat_id model
              (backend st.calls system st.messages).input_tokens
              (backend st.calls system st.messages).output_tokens) ++ rest ∧
      ((structStep backend reg cancel system model bot_id session_id chat_id st).2
          = .cancelled → rest = []) ∧
      ((structStep backend reg cancel system model bot_id session_id chat_id st).2
          = .next →
        rest.map (fun t => t.role)
          = List.replicate
              (toolUsesOf (backend st.calls system st.messages).content).length
              "tool_result" ∧
        rest.map (fun t => t.tool_call_id)
          = (toolUsesOf (backend st.calls system st.messages).content).map
              (fun b => some b.id)) ∧
      ((structStep backend reg cancel system model bot_id session_id chat_id st).2
          = .cancelled ∨
       (structStep backend reg cancel system model bot_id session_id chat_id st).2
          = .next) := by
  rcases h : toolUsesOf (backend st.calls system st.messages).content with _ | ⟨b0, bs⟩
  · exact absurd h htools
  · unfold structStep
    simp only [hnc, Bool.false_eq_true, if_false]
    rw [h]
    dsimp only
    by_cases hc2 : cancel (st.checks + 1) = true
    · refine ⟨[], ?_, ?_, ?_, ?_⟩
      · rw [if_pos hc2]
        simp
      · intro _; rfl
      · intro habs
        rw [if_pos hc2] at habs
        simp at habs
      · rw [if_pos hc2]
        exact Or.inl rfl
    · rw [if_neg hc2]
      refine ⟨(executeBatch reg cancel (st.checks + 1 + 1) (b0 :: bs)).map
        (tool_result_turn bot_id session_id chat_id model (b0 :: bs)), ?_, ?_, ?_, ?_⟩
      · simp
      · intro habs; simp at habs
      · intro _
        constructor
        · have hlen := executeBatch_length reg cancel (b0 :: bs) (st.checks + 1 + 1)
          rw [List.map_map]
          show (executeBatch reg cancel (st.checks + 1 + 1) (b0 :: bs)).map
            (fun _ => "tool_result") = _
          rw [List.map_const', hlen]
        · rw [List.map_map]
          show (executeBatch reg cancel (st.checks + 1 + 1) (b0 :: bs)).map
            (fun p => some p.1) = _
          have hfst := executeBatch_map_fst reg cancel (b0 :: bs) (st.checks + 1 + 1)
          calc (executeBatch reg cancel (st.checks + 1 + 1) (b0 :: bs)).map
                (fun p => some p.1)
              = ((executeBatch reg cancel (st.checks + 1 + 1) (b0 :: bs)).map
                  Prod.fst).map some := by rw [List.map_map]; rfl
            _ = ((b0 :: bs).map (fun b => b.id)).map some := by rw [hfst]
            _ = (b0 :: bs).map (fun b => some b.id) := by rw [List.map_map]; rfl
      · exact Or.inr rfl

/-- A structured backend answering with interleaved text and one tool
use. -/
def c5_backend : Nat → String → List Msg → ApiResponse :=
  fun _ _ _ => ⟨[.text "calling a tool", .toolUse ⟨"toolu_9", "browser", .obj []⟩], 1, 2⟩

/-- An empty registry for the C5 witness run. -/
def c5_registry : Registry := fun _ => none

theorem spec_C5_witness :
    ∃ rest : List ConversationRecord,
      (structStep c5_backend c5_registry (fun _ => false) "sys" "m" "b" "s" "c"
        ⟨[], [], 0, 0⟩).1.turns
        = [] ++ (toolUsesOf (c5_backend 0 "sys" []).content).map
            (tool_use_turn "b" "s" "c" "m" (c5_backend 0 "sys" []).input_tokens
              (c5_backend 0 "sys" []).output_tokens) ++ rest ∧
      ((structStep c5_backend c5_registry (fun _ => false) "sys" "m" "b" "s" "c"
        ⟨[], [], 0, 0⟩).2 = .cancelled → rest = []) ∧
      ((structStep c5_backend c5_registry (fun _ => false) "sys" "m" "b" "s" "c"
        ⟨[], [], 0, 0⟩).2 = .next →
        rest.map (fun t => t.role)
          = List.replicate (toolUsesOf (c5_backend 0 "sys" []).content).length
              "tool_result" ∧
        rest.map (fun t => t.tool_call_id)
          = (toolUsesOf (c5_backend 0 "sys" []).content).map (fun b => some b.id)) ∧
      ((structStep c5_backend c5_registry (fun _ => false) "sys" "m" "b" "s" "c"
        ⟨[], [], 0, 0⟩).2 = .cancelled ∨
       (structStep c5_backend c5_registry (fun _ => false) "sys" "m" "b" "s" "c"
        ⟨[], [], 0, 0⟩).2 = .next) :=
  spec_C5 c5_backend c5_registry (fun _ => false) "sys" "m" "b" "s" "c"
    ⟨[], [], 0, 0⟩ rfl (by simp [c5_backend, toolUsesOf])

theorem listIsPre_true : ∀ {l1 l2 : List Char}, l1 <+: l2 → l1.isPrefixOf l2 = true := by
  intro l1
  induction l1 with
  | nil => intro l2 _; simp [List.isPrefixOf]
  | cons c cs ih =>
    intro l2 h
    obtain ⟨t, ht⟩ := h
    subst ht
    simp only [List.cons_append, List.isPrefixOf, beq_self_eq_true, Bool.true_and]
    exact ih ⟨t, rfl⟩

theorem listIsInfixOf_true : ∀ {l2 l1 : List Char}, l1 <:+: l2 → listIsInfixOf l1 l2 = true := by
  intro l2
  induction l2 with
  | nil =>
    intro l1 h
    obtain ⟨s, t, hst⟩ := h
    rcases List.append_eq_nil.mp hst with ⟨hsl, ht⟩
    rcases List.append_eq_nil.mp hsl with ⟨hs, hl⟩
    subst hl
    simp [listIsInfixOf]
  | cons c rest ih =>
    intro l1 h
    obtain ⟨s, t, hst⟩ := h
    cases s with
    | nil =>
      simp only [List.nil_append] at hst
      simp only [listIsInfixOf, Bool.or_eq_true]
      exact Or.inl (listIsPre_true ⟨t, hst⟩)
    | cons x xs =>
      simp only [List.cons_append, List.cons.injEq] at hst
      obtain ⟨hx, hrest⟩ := hst
      simp only [listIsInfixOf, Bool.or_eq_true]
      exact Or.inr (ih ⟨xs, t, hrest⟩)

theorem strContains_middle (pre n post : String) :
    strContains (pre ++ n ++ post) n = true := by
  unfold strContains
  apply listIsInfixOf_true
  exact ⟨pre.data, post.data, by simp⟩

theorem executeBatch_unknown_mem (reg : Registry) (b : ToolUseBlock)
    (hb : reg b.name = none) :
    ∀ (tus : List ToolUseBlock) (check : Nat), b ∈ tus →
      (b.id, unknownToolError b.name) ∈ executeBatch reg (fun _ => false) check tus := by
  intro tus
  induction tus with
  | nil => intro check hmem; simp at hmem
  | cons x xs ih =>
    intro check hmem
    rcases List.mem_cons.mp hmem with heq | hmem'
    · subst heq
      simp [executeBatch, execute_one, hb]
    · simp only [executeBatch, List.mem_cons]
      exact Or.inr (ih (check + 1) hmem')

theorem structStep_nocancel_turns (backend : Nat → String → List Msg → ApiResponse)
    (reg : Registry) (system model bot_id session_id chat_id : String)
    (st : LoopState)
    (htools : toolUsesOf (backend st.calls system st.messages).content ≠ []) :
    (structStep backend reg (fun _ => false) system model bot_id session_id chat_id st).1.turns
      = st.turns ++
        (toolUsesOf (backend st.calls system st.messages).content).map
          (tool_use_turn bot_id session_id chat_id model
            (backend st.calls system st.messages).input_tokens
            (backend st.calls system st.messages).output_tokens) ++
        (executeBatch reg (fun _ => false) (st.checks + 1 + 1)
          (toolUsesOf (backend st.calls system st.messages).content)).map
          (tool_result_turn bot_id session_id chat_id model
            (toolUsesOf (backend st.calls system st.messages).content)) := by
  rcases h : toolUsesOf (backend st.calls system st.messages).content with _ | ⟨b0, bs⟩
  · exact absurd h htools
  · unfold structStep
    simp only [Bool.false_eq_true, if_false]
    rw [h]

/-- C6: a tool call naming a tool absent from the registry yields a
per-call error string containing the requested name, and the loop
continues to the next round rather than terminating or raising.
First conjunct: structured loop — if some tool-use block of the response
names an unregistered tool (no cancellation), the round ends in `.next`
and a `tool_result` turn correlated to that block is persisted whose
content is exactly the unknown-tool error string containing the name.
Second conjunct: text-tagged loop — if the response carries one tag whose
JSON names an unregistered tool (no cancellation), the round ends in
`.next` and the persisted `user` results turn carries the unknown-tool
error string containing the name. -/
theorem spec_C6 :
    (∀ (backend : Nat → String → List Msg → ApiResponse) (reg : Registry)
        (system model bot_id session_id chat_id : String) (st : LoopState)
        (b : ToolUseBlock),
      b ∈ toolUsesOf (backend st.calls system st.messages).content →
      reg b.name = none →
      (structStep backend reg (fun _ => false) system model bot_id session_id
        chat_id st).2 = .next ∧
      ∃ turn : ConversationRecord,
        turn ∈ (structStep backend reg (fun _ => false) system model bot_id
          session_id chat_id st).1.turns ∧
        turn.role = "tool_result" ∧ turn.tool_call_id = some b.id ∧
        turn.content = unknownToolError b.name ∧
        strContains turn.content b.name = true) ∧
    (∀ (backend : Nat → String → List Msg → AIResponse) (reg : Registry)
        (full_system bot_id session_id chat_id : String) (st : LoopState)
        (tag : String) (fields : List (String × JVal)) (name : String),
      findToolCalls (backend st.calls full_system st.messages).text = [tag] →
      jLoads tag = some (.obj fields) →
      jGet fields "tool" = some (.str name) →
      reg name = none →
      (ccStep backend reg (fun _ => false) full_system bot_id session_id
        chat_id st).2 = .next ∧
      ∃ turn : ConversationRecord,
        turn ∈ (ccStep backend reg (fun _ => false) full_system bot_id
          session_id chat_id st).1.turns ∧
        turn.role = "user" ∧
        turn.content = "[Tool Result: " ++ name ++ "]\n" ++ unknownToolError name ∧
        strContains turn.content name = true) := by
  constructor
  · intro backend reg system model bot_id session_id chat_id st b hmem hb
    have htools : toolUsesOf (backend st.calls system st.messages).content ≠ [] :=
      List.ne_nil_of_mem hmem
    constructor
    · exact (structStep_next backend reg system model bot_id session_id chat_id
        st htools).1
    · refine ⟨tool_result_turn bot_id session_id chat_id model
        (toolUsesOf (backend st.calls system st.messages).content)
        (b.id, unknownToolError b.name), ?_, rfl, rfl, rfl, ?_⟩
      · rw [structStep_nocancel_turns backend reg system model bot_id session_id
          chat_id st htools]
        apply List.mem_append_right
        exact List.mem_map_of_mem _
          (executeBatch_unknown_mem reg b hb _ (st.checks + 1 + 1) hmem)
      · exact strContains_middle ("Error: unknown tool " ++ sq) b.name sq
  · intro backend reg full_system bot_id session_id chat_id st tag fields name
      htag hjson htool hreg
    unfold ccStep
    simp only [Bool.false_eq_true, if_false]
    rw [htag]
    dsimp only
    have hproc : ccProcessTag reg (fun _ => false) (st.checks + 1 + 1) tag
        = .res ("[Tool Result: " ++ name ++ "]\n" ++ unknownToolError name) := by
      unfold ccProcessTag
      simp only [Bool.false_eq_true, if_false]
      rw [hjson]
      dsimp only
      rw [htool]
      dsimp only [Option.getD]
      rw [hreg]
    have hrun : ccRunTags reg (fun _ => false) (st.checks + 1 + 1) [tag]
        = (1, some ["[Tool Result: " ++ name ++ "]\n" ++ unknownToolError name]) := by
      unfold ccRunTags
      rw [hproc]
      simp [ccRunTags]
    rw [hrun]
    dsimp only
    refine ⟨rfl, ?_⟩
    refine ⟨ConversationRecord.mk bot_id session_id chat_id "user"
      (String.intercalate "\n\n"
        ["[Tool Result: " ++ name ++ "]\n" ++ unknownToolError name])
      "" 0 0 none none, ?_, rfl, ?_, ?_⟩
    · simp
    · show String.intercalate "\n\n" [_] = _
      rfl
    · show strContains (String.intercalate "\n\n"
        ["[Tool Result: " ++ name ++ "]\n" ++ unknownToolError name]) name = true
      have : String.intercalate "\n\n"
          ["[Tool Result: " ++ name ++ "]\n" ++ unknownToolError name]
          = ("[Tool Result: " ++ name) ++ ("]\n" ++ unknownToolError name) := by
        show "[Tool Result: " ++ name ++ "]\n" ++ unknownToolError name = _
        rw [String.append_assoc]
      rw [this]
      have h2 : ("[Tool Result: " ++ name) ++ ("]\n" ++ unknownToolError name)
          = "[Tool Result: " ++ name ++ ("]\n" ++ unknownToolError name) := by
        rw [String.append_assoc]
      rw [h2]
      exact strContains_middle "[Tool Result: " name ("]\n" ++ unknownToolError name)

/-- Structured backend requesting the unregistered tool "ghost". -/
def c6_sbackend : Nat → String → List Msg → ApiResponse :=
  fun _ _ _ => ⟨[.toolUse ⟨"id7", "ghost", .obj []⟩], 0, 0⟩

/-- The tagged call text naming the unregistered tool "ghost". -/
def c6_tag : String :=
  String.singleton lbrace ++ "\"tool\": \"ghost\", \"input\": " ++
    String.singleton lbrace ++ String.singleton rbrace ++ String.singleton rbrace

/-- Text-tagged backend emitting that tag. -/
def c6_tbackend : Nat → String → List Msg → AIResponse :=
  fun _ _ _ => ⟨"<tool_call>" ++ c6_tag ++ "</tool_call>", 0, 0⟩

/-- An empty registry for the C6 witness runs. -/
def c6_registry : Registry := fun _ => none

theorem spec_C6_witness :
    ((structStep c6_sbackend c6_registry (fun _ => false) "sys" "m" "b" "s" "c"
        ⟨[], [], 0, 0⟩).2 = .next ∧
      ∃ turn : ConversationRecord,
        turn ∈ (structStep c6_sbackend c6_registry (fun _ => false) "sys" "m" "b"
          "s" "c" ⟨[], [], 0, 0⟩).1.turns ∧
        turn.role = "tool_result" ∧
        turn.tool_call_id = some (ToolUseBlock.mk "id7" "ghost" (.obj [])).id ∧
        turn.content = unknownToolError (ToolUseBlock.mk "id7" "ghost" (.obj [])).name ∧
        strContains turn.content (ToolUseBlock.mk "id7" "ghost" (.obj [])).name = true) ∧
    ((ccStep c6_tbackend c6_registry (fun _ => false) "sys" "b" "s" "c"
        ⟨[], [], 0, 0⟩).2 = .next ∧
      ∃ turn : ConversationRecord,
        turn ∈ (ccStep c6_tbackend c6_registry (fun _ => false) "sys" "b" "s" "c"
          ⟨[], [], 0, 0⟩).1.turns ∧
        turn.role = "user" ∧
        turn.content = "[Tool Result: " ++ "ghost" ++ "]\n" ++ unknownToolError "ghost" ∧
        strContains turn.content "ghost" = true) :=
  ⟨spec_C6.1 c6_sbackend c6_registry "sys" "m" "b" "s" "c" ⟨[], [], 0, 0⟩
      (ToolUseBlock.mk "id7" "ghost" (.obj []))
      (by simp [c6_sbackend, toolUsesOf]) rfl,
   spec_C6.2 c6_tbackend c6_registry "sys" "b" "s" "c" ⟨[], [], 0, 0⟩
      c6_tag [("tool", .str "ghost"), ("input", .obj [])] "ghost"
      (by decide) rfl rfl rfl⟩

theorem appendAttachmentsRev_no_user (codec : Codec) (atts : List Attachment) :
    ∀ (l : List Msg), (∀ m ∈ l, m.role ≠ "user") →
      appendAttachmentsRev codec atts l = l := by
  intro l
  induction l with
  | nil => intro _; rfl
  | cons m rest ih =>
    intro h
    have hm : m.role ≠ "user" := h m (List.mem_cons_self m rest)
    simp only [appendAttachmentsRev, if_neg hm]
    rw [ih (fun x hx => h x (List.mem_cons_of_mem m hx))]

theorem appendAttachmentsRev_hits_user (codec : Codec) (atts : List Attachment) :
    ∀ (l : List Msg), (∀ m ∈ l, m.role ≠ "user") →
      ∀ (c : MsgContent) (rest : List Msg),
        appendAttachmentsRev codec atts (l ++ ⟨"user", c⟩ :: rest)
          = l ++ ⟨"user", .blocks (toBlockList c ++ atts.map (attachment_block codec))⟩ :: rest := by
  intro l
  induction l with
  | nil =>
    intro _ c rest
    simp [appendAttachmentsRev]
  | cons m l' ih =>
    intro h c rest
    have hm : m.role ≠ "user" := h m (List.mem_cons_self m l')
    simp only [List.cons_append, appendAttachmentsRev, if_neg hm]
    simp only [List.append_eq]
    rw [ih (fun x hx => h x (List.mem_cons_of_mem m hx)) c rest]

/-- C7: attachment classification in `build_messages`.
First conjunct (placement): with a non-empty attachment list and a most
recent user message, the assembled output modifies exactly that message,
turning its content into blocks and appending one block per attachment in
order.  Second conjunct: a `text/plain` attachment's block is an inline
text block with its decoded contents, falling back to lossy
replacement-character decoding when strict UTF-8 decoding fails (the
turn never fails).  Third conjunct: an `application/octet-stream`
attachment's block is a metadata-only note (filename, type, size).
Fourth conjunct: the assembled messages for an `application/octet-stream`
attachment depend only on the byte count, never on the bytes — the raw
bytes cannot appear in the output. -/
theorem spec_C7 :
    (∀ (codec : Codec) (history : List ConversationRecord)
        (atts : List Attachment) (pre post : List Msg) (c : MsgContent),
      atts ≠ [] →
      assemble history 0 = pre ++ ⟨"user", c⟩ :: post →
      (∀ m ∈ post, m.role ≠ "user") →
      build_messages codec history atts
        = pre ++ ⟨"user", .blocks (toBlockList c ++ atts.map (attachment_block codec))⟩
            :: post) ∧
    (∀ (codec : Codec) (d : List Nat) (fn : String),
      attachment_block codec ⟨d, "text/plain", fn⟩
        = .text ("[File: " ++ fn ++ "]\n" ++
            (match codec.decodeUtf8 d with
             | some s => s
             | none => codec.decodeUtf8Replace d))) ∧
    (∀ (codec : Codec) (d : List Nat) (fn : String),
      attachment_block codec ⟨d, "application/octet-stream", fn⟩
        = .text ("[File: " ++ fn ++ " (" ++ "application/octet-stream" ++ ", " ++
            formatKb d.length ++ " KB) â€” binary file, content not shown]")) ∧
    (∀ (codec : Codec) (history : List ConversationRecord) (fn : String)
        (d d' : List Nat), d.length = d'.length →
      build_messages codec history [⟨d, "application/octet-stream", fn⟩]
        = build_messages codec history [⟨d', "application/octet-stream", fn⟩]) := by
  refine ⟨?_, ?_, ?_, ?_⟩
  · intro codec history atts pre post c hatts hasm hpost
    unfold build_messages
    dsimp only
    rw [hasm]
    have h1 : atts.isEmpty = false := by
      cases atts with
      | nil => exact absurd rfl hatts
      | cons a l => rfl
    have h2 : (pre ++ ⟨"user", c⟩ :: post).isEmpty = false := by
      cases pre <;> rfl
    rw [h1, h2]
    simp only [Bool.or_self, Bool.false_eq_true, if_false]
    unfold append_attachments
    have hrev : (pre ++ ⟨"user", c⟩ :: post).reverse
        = post.reverse ++ (⟨"user", c⟩ : Msg) :: pre.reverse := by
      simp
    rw [hrev, appendAttachmentsRev_hits_user codec atts post.reverse
      (fun m hm => hpost m (List.mem_reverse.mp hm)) c pre.reverse]
    simp
  · intro codec d fn
    rfl
  · intro codec d fn
    rfl
  · intro codec history fn d d' hlen
    have hblock : attachment_block codec ⟨d, "application/octet-stream", fn⟩
        = attachment_block codec ⟨d', "application/octet-stream", fn⟩ := by
      show CBlock.text _ = CBlock.text _
      rw [hlen]
    unfold build_messages
    dsimp only
    cases hm : (assemble history 0).isEmpty
    · simp only [List.isEmpty_cons, Bool.or_false, Bool.false_eq_true, if_false]
      unfold append_attachments
      have hsame : ∀ l, appendAttachmentsRev codec [⟨d, "application/octet-stream", fn⟩] l
          = appendAttachmentsRev codec [⟨d', "application/octet-stream", fn⟩] l := by
        intro l
        induction l with
        | nil => rfl
        | cons m rest ih =>
          unfold appendAttachmentsRev
          by_cases hr : m.role = "user"
          · rw [if_pos hr, if_pos hr]
            simp [hblock]
          · rw [if_neg hr, if_neg hr, ih]
      rw [hsame]
    · simp

/-- A concrete codec for the C7 witness run. -/
def c7_codec : Codec := ⟨fun _ => "B64", fun _ => some "hello", fun _ => "repl"⟩

/-- A stored user record for the C7 witness run. -/
def c7_user_rec : ConversationRecord :=
  { bot_id := "b", session_id := "s", chat_id := "c", role := "user", content := "hi" }

theorem spec_C7_witness :
    (build_messages c7_codec [c7_user_rec] [⟨[104, 105], "text/plain", "a.txt"⟩]
      = [] ++ ⟨"user", .blocks (toBlockList (.str "hi") ++
          [(⟨[104, 105], "text/plain", "a.txt"⟩ : Attachment)].map
            (attachment_block c7_codec))⟩ :: []) ∧
    (attachment_block c7_codec ⟨[104, 105], "text/plain", "a.txt"⟩
      = .text ("[File: " ++ "a.txt" ++ "]\n" ++
          (match c7_codec.decodeUtf8 [104, 105] with
           | some s => s
           | none => c7_codec.decodeUtf8Replace [104, 105]))) ∧
    (attachment_block c7_codec ⟨[1, 2], "application/octet-stream", "blob.bin"⟩
      = .text ("[File: " ++ "blob.bin" ++ " (" ++ "application/octet-stream" ++ ", " ++
          formatKb (List.length [1, 2]) ++ " KB) â€” binary file, content not shown]")) ∧
    (build_messages c7_codec [c7_user_rec] [⟨[1, 2], "application/octet-stream", "blob.bin"⟩]
      = build_messages c7_codec [c7_user_rec] [⟨[9, 9], "application/octet-stream", "blob.bin"⟩]) :=
  ⟨spec_C7.1 c7_codec [c7_user_rec] [⟨[104, 105], "text/plain", "a.txt"⟩] [] []
      (.str "hi") (by simp) (by simp [assemble, c7_user_rec]) (by simp),
   spec_C7.2.1 c7_codec [104, 105] "a.txt",
   spec_C7.2.2.1 c7_codec [1, 2] "blob.bin",
   spec_C7.2.2.2 c7_codec [c7_user_rec] "blob.bin" [1, 2] [9, 9] rfl⟩

/-- C10: with a non-empty attachment list and an assembled message list
containing no `user`-role message (for example an assistant-only or empty
history), `build_messages` returns exactly what it returns with no
attachments: the attachments are silently dropped, no message is modified
and none is appended. -/
theorem spec_C10 (codec : Codec) (history : List ConversationRecord)
    (atts : List Attachment) (hatts : atts ≠ [])
    (husers : ∀ m ∈ assemble history 0, m.role ≠ "user") :
    build_messages codec history atts = build_messages codec history [] := by
  unfold build_messages
  dsimp only
  cases hm : (assemble history 0).isEmpty
  · have h1 : atts.isEmpty = false := by
      cases atts with
      | nil => exact absurd rfl hatts
      | cons a l => rfl
    rw [h1]
    simp only [List.isEmpty_nil, Bool.true_or, Bool.or_false, Bool.false_eq_true,
      if_false, if_true]
    unfold append_attachments
    rw [appendAttachmentsRev_no_user codec atts (assemble history 0).reverse
      (fun m hmem => husers m (List.mem_reverse.mp hmem))]
    exact List.reverse_reverse _
  · simp

/-- An assistant-only stored record for the C10 witness run. -/
def c10_assistant_rec : ConversationRecord :=
  { bot_id := "b", session_id := "s", chat_id := "c",
    role := "assistant", content := "hello there" }

theorem spec_C10_witness :
    build_messages c7_codec [c10_assistant_rec] [⟨[1], "text/plain", "x.txt"⟩]
      = build_messages c7_codec [c10_assistant_rec] [] :=
  spec_C10 c7_codec [c10_assistant_rec] [⟨[1], "text/plain", "x.txt"⟩]
    (by simp) (by simp [assemble, c10_assistant_rec])

/-! ## Round-trip correlation (C8) -/

/-- The block list of a message content (none for plain string content). -/
def blocksOf : MsgContent → List CBlock
  | .str _ => []
  | .blocks bs => bs

/-- Whether a block is a `tool_use` block. -/
def isToolUseBlock : CBlock → Bool
  | .toolUse _ _ _ => true
  | _ => false

/-- Whether a block is a `tool_result` block. -/
def isToolResultBlock : CBlock → Bool
  | .toolResult _ _ => true
  | _ => false

/-- Re-derive the tool-call blocks from assembled messages: every
`tool_use` block of every assistant message, in message order. -/
def derivedToolUses : List Msg → List CBlock
  | [] => []
  | m :: rest =>
    (if m.role = "assistant" then (blocksOf m.content).filter isToolUseBlock else [])
      ++ derivedToolUses rest

/-- Re-derive the tool-result blocks from assembled messages: every
`tool_result` block of every user message, in message order. -/
def derivedToolResults : List Msg → List CBlock
  | [] => []
  | m :: rest =>
    (if m.role = "user" then (blocksOf m.content).filter isToolResultBlock else [])
      ++ derivedToolResults rest

/-- The original correlation data, read directly off the stored history:
one `tool_use` block (id, name, parsed input) per `tool_use` record, in
record order, with the same positional-index fallbacks the assembler
uses. -/
def historyToolUses : List ConversationRecord → Nat → List CBlock
  | [], _ => []
  | r :: rest, i =>
    (if r.role = "tool_use" then [tool_use_block r i] else [])
      ++ historyToolUses rest (i + 1)

/-- One `tool_result` block (id, content) per `tool_result` record, in
record order. -/
def historyToolResults : List ConversationRecord → Nat → List CBlock
  | [], _ => []
  | r :: rest, i =>
    (if r.role = "tool_result" then [tool_result_block r i] else [])
      ++ historyToolResults rest (i + 1)

theorem takeRun_tu_uses (l : List ConversationRecord) :
    ∀ i, historyToolUses l i
      = (takeRun "tool_use" tool_use_block l i).1 ++
        historyToolUses (takeRun "tool_use" tool_use_block l i).2.1
          (takeRun "tool_use" tool_use_block l i).2.2 := by
  induction l with
  | nil => intro i; simp [takeRun, historyToolUses]
  | cons r rest ih =>
    intro i
    by_cases hr : r.role = "tool_use"
    · simp only [takeRun, if_pos hr, historyToolUses]
      rw [ih (i + 1)]
      simp
    · simp [takeRun, hr, historyToolUses]

theorem takeRun_tu_results (l : List ConversationRecord) :
    ∀ i, historyToolResults l i
      = historyToolResults (takeRun "tool_use" tool_use_block l i).2.1
          (takeRun "tool_use" tool_use_block l i).2.2 := by
  induction l with
  | nil => intro i; simp [takeRun]
  | cons r rest ih =>
    intro i
    by_cases hr : r.role = "tool_use"
    · have hr2 : r.role ≠ "tool_result" := by rw [hr]; decide
      simp only [takeRun, if_pos hr, historyToolResults, if_neg hr2]
      rw [ih (i + 1)]
      simp
    · simp [takeRun, hr]

theorem takeRun_tu_blocks (l : List ConversationRecord) :
    ∀ i, ((takeRun "tool_use" tool_use_block l i).1).filter isToolUseBlock
        = (takeRun "tool_use" tool_use_block l i).1 ∧
      ((takeRun "tool_use" tool_use_block l i).1).filter isToolResultBlock = [] := by
  induction l with
  | nil => intro i; simp [takeRun]
  | cons r rest ih =>
    intro i
    by_cases hr : r.role = "tool_use"
    · simp only [takeRun, if_pos hr]
      constructor
      · show List.filter _ (tool_use_block r i :: _) = _
        rw [List.filter_cons_of_pos (by rfl)]
        rw [(ih (i + 1)).1]
      · show List.filter _ (tool_use_block r i :: _) = _
        rw [List.filter_cons_of_neg (by simp [tool_use_block, isToolResultBlock])]
        exact (ih (i + 1)).2
    · simp [takeRun, hr]

theorem takeRun_tr_results (l : List ConversationRecord) :
    ∀ i, historyToolResults l i
      = (takeRun "tool_result" tool_result_block l i).1 ++
        historyToolResults (takeRun "tool_result" tool_result_block l i).2.1
          (takeRun "tool_result" tool_result_block l i).2.2 := by
  induction l with
  | nil => intro i; simp [takeRun, historyToolResults]
  | cons r rest ih =>
    intro i
    by_cases hr : r.role = "tool_result"
    · simp only [takeRun, if_pos hr, historyToolResults]
      rw [ih (i + 1)]
      simp
    · simp [takeRun, hr, historyToolResults]

theorem takeRun_tr_uses (l : List ConversationRecord) :
    ∀ i, historyToolUses l i
      = historyToolUses (takeRun "tool_result" tool_result_block l i).2.1
          (takeRun "tool_result" tool_result_block l i).2.2 := by
  induction l with
  | nil => intro i; simp [takeRun]
  | cons r rest ih =>
    intro i
    by_cases hr : r.role = "tool_result"
    · have hr2 : r.role ≠ "tool_use" := by rw [hr]; decide
      simp only [takeRun, if_pos hr, historyToolUses, if_neg hr2]
      rw [ih (i + 1)]
      simp
    · simp [takeRun, hr]

theorem takeRun_tr_blocks (l : List ConversationRecord) :
    ∀ i, ((takeRun "tool_result" tool_result_block l i).1).filter isToolResultBlock
        = (takeRun "tool_result" tool_result_block l i).1 ∧
      ((takeRun "tool_result" tool_result_block l i).1).filter isToolUseBlock = [] := by
  induction l with
  | nil => intro i; simp [takeRun]
  | cons r rest ih =>
    intro i
    by_cases hr : r.role = "tool_result"
    · simp only [takeRun, if_pos hr]
      constructor
      · show List.filter _ (tool_result_block r i :: _) = _
        rw [List.filter_cons_of_pos (by rfl)]
        rw [(ih (i + 1)).1]
      · show List.filter _ (tool_result_block r i :: _) = _
        rw [List.filter_cons_of_neg (by simp [tool_result_block, isToolUseBlock])]
        exact (ih (i + 1)).2
    · simp [takeRun, hr]

theorem assemble_correlation :
    ∀ (n : Nat) (history : List ConversationRecord), history.length ≤ n →
      ∀ i, derivedToolUses (assemble history i) = historyToolUses history i ∧
        derivedToolResults (assemble history i) = historyToolResults history i := by
  intro n
  induction n with
  | zero =>
    intro history hlen i
    have : history = [] := List.eq_nil_of_length_eq_zero (Nat.le_zero.mp hlen)
    subst this
    simp [assemble, derivedToolUses, derivedToolResults, historyToolUses,
      historyToolResults]
  | succ n ih =>
    intro history hlen i
    cases history with
    | nil =>
      simp [assemble, derivedToolUses, derivedToolResults, historyToolUses,
        historyToolResults]
    | cons r rest =>
      have hrest : rest.length ≤ n := by
        simp only [List.length_cons] at hlen
        omega
      by_cases hu : r.role = "user"
      · have ha : r.role ≠ "assistant" := by rw [hu]; decide
        have htu : r.role ≠ "tool_use" := by rw [hu]; decide
        have htr : r.role ≠ "tool_result" := by rw [hu]; decide
        unfold assemble
        rw [if_pos hu]
        simp only [derivedToolUses, derivedToolResults, historyToolUses,
          historyToolResults, if_neg htu, if_neg htr]
        have hih := ih rest hrest (i + 1)
        constructor
        · simp only [blocksOf, List.filter_nil, reduceIte, List.nil_append]
          exact hih.1
        · simp only [blocksOf, List.filter_nil, reduceIte, List.nil_append]
          exact hih.2
      · by_cases ha : r.role = "assistant"
        · have htu : r.role ≠ "tool_use" := by rw [ha]; decide
          have htr : r.role ≠ "tool_result" := by rw [ha]; decide
          unfold assemble
          rw [if_neg hu, if_pos ha]
          simp only [derivedToolUses, derivedToolResults, historyToolUses,
            historyToolResults, if_neg htu, if_neg htr]
          have hih := ih rest hrest (i + 1)
          constructor
          · simp only [blocksOf, List.filter_nil, reduceIte, List.nil_append]
            exact hih.1
          · simp only [blocksOf, List.filter_nil, reduceIte, List.nil_append]
            exact hih.2
        · by_cases htu : r.role = "tool_use"
          · unfold assemble
            rw [if_neg hu, if_neg ha]
            rw [dif_pos htu]
            have hrest' : (takeRun "tool_use" tool_use_block (r :: rest) i).2.1.length ≤ n := by
              have h1 : (takeRun "tool_use" tool_use_block rest (i + 1)).2.1.length
                  ≤ rest.length := takeRun_rest_length _ _ rest (i + 1)
              simp only [takeRun, if_pos htu]
              omega
            have hih := ih _ hrest' ((takeRun "tool_use" tool_use_block (r :: rest) i).2.2)
            constructor
            · simp only [derivedToolUses, reduceIte, blocksOf]
              rw [(takeRun_tu_blocks (r :: rest) i).1, hih.1]
              rw [takeRun_tu_uses (r :: rest) i]
            · simp only [derivedToolResults]
              have hne : ("assistant" : String) ≠ "user" := by decide
              rw [if_neg hne]
              simp only [blocksOf, List.nil_append]
              rw [hih.2]
              rw [takeRun_tu_results (r :: rest) i]
          · by_cases htr : r.role = "tool_result"
            · unfold assemble
              rw [if_neg hu, if_neg ha]
              rw [dif_neg htu, dif_pos htr]
              have hrest' : (takeRun "tool_result" tool_result_block (r :: rest) i).2.1.length ≤ n := by
                have h1 : (takeRun "tool_result" tool_result_block rest (i + 1)).2.1.length
                    ≤ rest.length := takeRun_rest_length _ _ rest (i + 1)
                simp only [takeRun, if_pos htr]
                omega
              have hih := ih _ hrest'
                ((takeRun "tool_result" tool_result_block (r :: rest) i).2.2)
              constructor
              · simp only [derivedToolUses]
                have hne : ("user" : String) ≠ "assistant" := by decide
                rw [if_neg hne]
                simp only [blocksOf, List.nil_append]
                rw [hih.1]
                rw [takeRun_tr_uses (r :: rest) i]
              · simp only [derivedToolResults, reduceIte, blocksOf]
                rw [(takeRun_tr_blocks (r :: rest) i).1, hih.2]
                rw [takeRun_tr_results (r :: rest) i]
            · unfold assemble
              rw [if_neg hu, if_neg ha]
              rw [dif_neg htu, dif_neg htr]
              simp only [historyToolUses, historyToolResults, if_neg htu, if_neg htr,
                List.nil_append]
              exact ih rest hrest (i + 1)

/-- C8: assembling a stored history with `build_messages` (no current
attachments) and re-deriving the call/result data from the assembled
messages recovers the original correlation exactly: the `tool_use` blocks
of the assistant messages are, in order, precisely one block (carrying
`tool_call_id`, `tool_name` and parsed input, with the assembler's
positional fallbacks) per stored `tool_use` record, and the `tool_result`
blocks of the user messages are precisely one block (carrying
`tool_call_id` and content) per stored `tool_result` record.  Pairing
requests with results by `tool_call_id` on the assembled form therefore
agrees with pairing them on the stored records, for every interleaving of
`tool_use`/`tool_result` turns. -/
theorem spec_C8 (codec : Codec) (history : List ConversationRecord) :
    derivedToolUses (build_messages codec history []) = historyToolUses history 0 ∧
    derivedToolResults (build_messages codec history []) = historyToolResults history 0 := by
  have hbm : build_messages codec history [] = assemble history 0 := rfl
  rw [hbm]
  exact assemble_correlation history.length history le_rfl 0

/-! ## Frame lemmas for the message-copy heap model (C9) -/

theorem copyMsgs_frame :
    ∀ (addrs : List Nat) (σ : Store) (fresh x : Nat), x < fresh →
      (copyMsgs σ addrs fresh).1 x = σ x := by
  intro addrs
  induction addrs with
  | nil => intro σ fresh x _; rfl
  | cons a rest ih =>
    intro σ fresh x hx
    show (copyMsgs (storeWrite σ fresh (σ a)) rest (fresh + 1)).1 x = σ x
    rw [ih (storeWrite σ fresh (σ a)) (fresh + 1) x (by omega)]
    unfold storeWrite
    rw [if_neg (by omega)]

theorem copyMsgs_addrs_ge :
    ∀ (addrs : List Nat) (σ : Store) (fresh x : Nat),
      x ∈ (copyMsgs σ addrs fresh).2 → fresh ≤ x := by
  intro addrs
  induction addrs with
  | nil => intro σ fresh x hx; simp [copyMsgs] at hx
  | cons a rest ih =>
    intro σ fresh x hx
    rcases List.mem_cons.mp hx with heq | hmem
    · omega
    · have := ih (storeWrite σ fresh (σ a)) (fresh + 1) x hmem
      omega

theorem copyMsgs_addrs_nodup :
    ∀ (addrs : List Nat) (σ : Store) (fresh : Nat),
      (copyMsgs σ addrs fresh).2.Nodup := by
  intro addrs
  induction addrs with
  | nil => intro σ fresh; simp [copyMsgs]
  | cons a rest ih =>
    intro σ fresh
    refine List.nodup_cons.mpr ⟨?_, ih (storeWrite σ fresh (σ a)) (fresh + 1)⟩
    intro hmem
    have := copyMsgs_addrs_ge rest (storeWrite σ fresh (σ a)) (fresh + 1) fresh hmem
    omega

theorem copyMsgs_read :
    ∀ (addrs : List Nat) (σ : Store) (fresh : Nat), (∀ a ∈ addrs, a < fresh) →
      readMsgs (copyMsgs σ addrs fresh).1 (copyMsgs σ addrs fresh).2
        = readMsgs σ addrs := by
  intro addrs
  induction addrs with
  | nil => intro σ fresh _; rfl
  | cons a rest ih =>
    intro σ fresh hlt
    show readMsgs (copyMsgs (storeWrite σ fresh (σ a)) rest (fresh + 1)).1
        (fresh :: (copyMsgs (storeWrite σ fresh (σ a)) rest (fresh + 1)).2)
      = σ a :: readMsgs σ rest
    unfold readMsgs
    rw [List.map_cons]
    have hhead : (copyMsgs (storeWrite σ fresh (σ a)) rest (fresh + 1)).1 fresh
        = σ a := by
      rw [copyMsgs_frame rest (storeWrite σ fresh (σ a)) (fresh + 1) fresh (by omega)]
      unfold storeWrite
      rw [if_pos rfl]
    rw [hhead]
    have htail := ih (storeWrite σ fresh (σ a)) (fresh + 1)
      (fun a' ha' => by have := hlt a' (List.mem_cons_of_mem a ha'); omega)
    unfold readMsgs at htail
    rw [htail]
    congr 1
    apply List.map_eq_map_iff.mpr
    intro a' ha'
    unfold storeWrite
    rw [if_neg]
    have := hlt a' (List.mem_cons_of_mem a ha')
    omega

theorem sanitizeStore_frame :
    ∀ (l : List Nat) (σ : Store) (x : Nat), x ∉ l → sanitizeStore σ l x = σ x := by
  intro l
  induction l with
  | nil => intro σ x _; rfl
  | cons a rest ih =>
    intro σ x hx
    have hxa : x ≠ a := fun h => hx (h ▸ List.mem_cons_self a rest)
    have hxrest : x ∉ rest := fun h => hx (List.mem_cons_of_mem a h)
    unfold sanitizeStore
    dsimp only
    rw [ih _ x hxrest]
    by_cases hrole : (σ a).role = "assistant"
    · rw [if_pos hrole]
      cases hc : (σ a).content with
      | str c =>
        dsimp only
        by_cases hph : refusal_phrases.any (fun p => strContains c p) = true
        · rw [if_pos hph]
          unfold storeWrite
          rw [if_neg hxa]
        · rw [if_neg hph]
      | blocks bs => rfl
    · rw [if_neg hrole]

theorem sanitizeStore_head :
    ∀ (σ : Store) (a : Nat), sanitizeStore σ [a] a = sanitizeMsg (σ a) := by
  intro σ a
  unfold sanitizeStore sanitizeMsg
  dsimp only
  by_cases hrole : (σ a).role = "assistant"
  · rw [if_pos hrole, if_pos hrole]
    cases hc : (σ a).content with
    | str c =>
      dsimp only
      by_cases hph : refusal_phrases.any (fun p => strContains c p) = true
      · rw [if_pos hph, if_pos hph]
        show storeWrite σ a _ a = _
        unfold storeWrite
        rw [if_pos rfl]
      · rw [if_neg hph, if_neg hph]
        rfl
    | blocks bs => rfl
  · rw [if_neg hrole, if_neg hrole]
    rfl

theorem sanitizeStore_cons_eq :
    ∀ (σ : Store) (a : Nat) (rest : List Nat),
      sanitizeStore σ (a :: rest) = sanitizeStore (sanitizeStore σ [a]) rest := by
  intro σ a rest
  rfl

theorem sanitizeStore_read :
    ∀ (l : List Nat) (σ : Store), l.Nodup →
      readMsgs (sanitizeStore σ l) l = (readMsgs σ l).map sanitizeMsg := by
  intro l
  induction l with
  | nil => intro σ _; rfl
  | cons a rest ih =>
    intro σ hnd
    obtain ⟨hnotmem, hndrest⟩ := List.nodup_cons.mp hnd
    rw [sanitizeStore_cons_eq]
    unfold readMsgs
    rw [List.map_cons, List.map_cons, List.map_cons]
    have hhead : sanitizeStore (sanitizeStore σ [a]) rest a = sanitizeMsg (σ a) := by
      rw [sanitizeStore_frame rest _ a hnotmem]
      exact sanitizeStore_head σ a
    rw [hhead]
    have htail := ih (sanitizeStore σ [a]) hndrest
    unfold readMsgs at htail
    rw [htail]
    have hinner : rest.map (sanitizeStore σ [a]) = rest.map σ := by
      apply List.map_eq_map_iff.mpr
      intro x hx
      have hxa : x ∉ [a] := by
        intro hmem
        rcases List.mem_singleton.mp hmem with rfl
        exact hnotmem hx
      rw [sanitizeStore_frame [a] σ x hxa]
    rw [hinner]

theorem appendReminderStoreRev_frame :
    ∀ (l : List Nat) (σ : Store) (reminder : String) (x : Nat), x ∉ l →
      appendReminderStoreRev σ reminder l x = σ x := by
  intro l
  induction l with
  | nil => intro σ reminder x _; rfl
  | cons a rest ih =>
    intro σ reminder x hx
    have hxa : x ≠ a := fun h => hx (h ▸ List.mem_cons_self a rest)
    have hxrest : x ∉ rest := fun h => hx (List.mem_cons_of_mem a h)
    unfold appendReminderStoreRev
    by_cases hrole : (σ a).role = "user"
    · rw [if_pos hrole]
      cases hc : (σ a).content with
      | str c =>
        dsimp only
        unfold storeWrite
        rw [if_neg hxa]
      | blocks bs =>
        dsimp only
        exact ih σ reminder x hxrest
    · rw [if_neg hrole]
      exact ih σ reminder x hxrest

theorem appendReminderStoreRev_read :
    ∀ (l : List Nat) (σ : Store) (reminder : String), l.Nodup →
      readMsgs (appendReminderStoreRev σ reminder l) l
        = appendReminderRev reminder (readMsgs σ l) := by
  intro l
  induction l with
  | nil => intro σ reminder _; rfl
  | cons a rest ih =>
    intro σ reminder hnd
    obtain ⟨hnotmem, hndrest⟩ := List.nodup_cons.mp hnd
    show readMsgs (appendReminderStoreRev σ reminder (a :: rest)) (a :: rest)
      = appendReminderRev reminder (σ a :: readMsgs σ rest)
    unfold appendReminderStoreRev appendReminderRev
    by_cases hrole : (σ a).role = "user"
    · rw [if_pos hrole, if_pos hrole]
      cases hc : (σ a).content with
      | str c =>
        dsimp only
        show storeWrite σ a ⟨"user", .str (c ++ reminder)⟩ a
            :: rest.map (storeWrite σ a ⟨"user", .str (c ++ reminder)⟩)
          = ⟨"user", .str (c ++ reminder)⟩ :: readMsgs σ rest
        congr 1
        · unfold storeWrite
          rw [if_pos rfl]
        · apply List.map_eq_map_iff.mpr
          intro x hx
          unfold storeWrite
          rw [if_neg (fun h : x = a => hnotmem (h ▸ hx))]
      | blocks bs =>
        dsimp only
        show appendReminderStoreRev σ reminder rest a
            :: rest.map (appendReminderStoreRev σ reminder rest)
          = σ a :: appendReminderRev reminder (readMsgs σ rest)
        congr 1
        · exact appendReminderStoreRev_frame rest σ reminder a hnotmem
        · exact ih σ reminder hndrest
    · rw [if_neg hrole, if_neg hrole]
      show appendReminderStoreRev σ reminder rest a
          :: rest.map (appendReminderStoreRev σ reminder rest)
        = σ a :: appendReminderRev reminder (readMsgs σ rest)
      congr 1
      · exact appendReminderStoreRev_frame rest σ reminder a hnotmem
      · exact ih σ reminder hndrest

/-- C9: the refusal-phrase rewriting and the reminder append of
`_run_claude_code_tool_loop` (executed when at least one tool is
selected) operate on freshly copied message cells only.  First conjunct:
every cell below the allocation frontier — in particular every dict of
the caller's original message list, and any cell the persisted history
could be read into — is unchanged.  Second conjunct: the copied list
read back out of the store is exactly the pure
refusal-rewrite-then-reminder transformation of the original messages,
so the mutations land on the in-memory copy and nowhere else. -/
theorem spec_C9 (σ : Store) (addrs : List Nat) (fresh : Nat) (reminder : String)
    (hlt : ∀ a ∈ addrs, a < fresh) :
    (∀ x, x < fresh → (prepare_messages σ addrs fresh reminder).1 x = σ x) ∧
    readMsgs (prepare_messages σ addrs fresh reminder).1
        (prepare_messages σ addrs fresh reminder).2
      = append_tool_reminder reminder (sanitizeRefusals (readMsgs σ addrs)) := by
  have hge : ∀ x ∈ (copyMsgs σ addrs fresh).2, fresh ≤ x :=
    fun x hx => copyMsgs_addrs_ge addrs σ fresh x hx
  have hnd : (copyMsgs σ addrs fresh).2.Nodup := copyMsgs_addrs_nodup addrs σ fresh
  constructor
  · intro x hx
    have hx1 : x ∉ (copyMsgs σ addrs fresh).2.reverse := by
      intro hmem
      have := hge x (List.mem_reverse.mp hmem)
      omega
    have hx2 : x ∉ (copyMsgs σ addrs fresh).2 := by
      intro hmem
      have := hge x hmem
      omega
    show appendReminderStoreRev (sanitizeStore (copyMsgs σ addrs fresh).1
      (copyMsgs σ addrs fresh).2) reminder (copyMsgs σ addrs fresh).2.reverse x = σ x
    rw [appendReminderStoreRev_frame _ _ reminder x hx1]
    rw [sanitizeStore_frame _ _ x hx2]
    exact copyMsgs_frame addrs σ fresh x hx
  · show readMsgs (appendReminderStoreRev (sanitizeStore (copyMsgs σ addrs fresh).1
        (copyMsgs σ addrs fresh).2) reminder (copyMsgs σ addrs fresh).2.reverse)
        (copyMsgs σ addrs fresh).2 = _
    have hrev : readMsgs (appendReminderStoreRev (sanitizeStore (copyMsgs σ addrs fresh).1
        (copyMsgs σ addrs fresh).2) reminder (copyMsgs σ addrs fresh).2.reverse)
        (copyMsgs σ addrs fresh).2
        = (readMsgs (appendReminderStoreRev (sanitizeStore (copyMsgs σ addrs fresh).1
            (copyMsgs σ addrs fresh).2) reminder (copyMsgs σ addrs fresh).2.reverse)
            (copyMsgs σ addrs fresh).2.reverse).reverse := by
      unfold readMsgs
      rw [List.map_reverse, List.reverse_reverse]
    rw [hrev]
    rw [appendReminderStoreRev_read _ _ reminder (List.nodup_reverse.mpr hnd)]
    have hsan : readMsgs (sanitizeStore (copyMsgs σ addrs fresh).1
        (copyMsgs σ addrs fresh).2) (copyMsgs σ addrs fresh).2.reverse
        = (readMsgs (sanitizeStore (copyMsgs σ addrs fresh).1
            (copyMsgs σ addrs fresh).2) (copyMsgs σ addrs fresh).2).reverse := by
      unfold readMsgs
      rw [List.map_reverse]
    rw [hsan]
    rw [sanitizeStore_read _ _ hnd]
    rw [copyMsgs_read addrs σ fresh hlt]
    rfl

/-- A two-message store for the C9 witness run: an assistant refusal at
address 0 and a user message at address 1; allocation frontier 2. -/
def c9_store : Store :=
  fun x => if x = 0 then ⟨"assistant", .str "I cannot browse the web"⟩
    else if x = 1 then ⟨"user", .str "please browse"⟩
    else ⟨"", .str ""⟩

theorem spec_C9_witness :
    (∀ x, x < 2 → (prepare_messages c9_store [0, 1] 2 " [use tools]").1 x = c9_store x) ∧
    readMsgs (prepare_messages c9_store [0, 1] 2 " [use tools]").1
        (prepare_messages c9_store [0, 1] 2 " [use tools]").2
      = append_tool_reminder " [use tools]" (sanitizeRefusals (readMsgs c9_store [0, 1])) :=
  spec_C9 c9_store [0, 1] 2 " [use tools]" (by decide)

end Panda
